import Mathlib

/-!
Verification development for the Query Runner tool (`src/query_runner.py`).

The Python source is shallowly embedded:

* Python `datetime` values (as produced by `datetime.strptime('%Y-%m-%d')`)
  are modelled by the type `PyDate` of valid proleptic-Gregorian calendar
  dates with year in [1, 9999]; `toOrdinal` is the standard day ordinal
  (`datetime(1,1,1)` has ordinal 1, as in CPython).  Adding
  `timedelta(days=1)` is `addDay`, which returns `none` exactly at
  9999-12-31 (CPython raises `OverflowError` there).
* Statements (Python `str`) are `List Char`; the two regular expressions of
  the source (`SET\s+@start_date\s*=\s*["'](\d{4}-\d{2}-\d{2})["']` for
  searching and `(SET\s+@start_date\s*=\s*)["'][\d-]+["']` for substitution,
  both with `re.IGNORECASE`) are implemented as character scanners.  Both
  patterns are deterministic: every greedy sub-pattern (`\s+`, `\s*`,
  `[\d-]+`) is followed by a character outside its class, so maximal munch
  is exact and no backtracking can change the result.  Case folding is
  ASCII, matching the ASCII statements the tool processes.
* The MySQL connection is an external collaborator; it is modelled by an
  abstract `DB` whose `exec` maps a statement and a session state to a new
  session state and either an error (a raised `mysql.connector.Error`) or
  an optional result set (`none` models `cursor.description is None`).
* Fallible Python code is `Except`-valued: a `.error` result models an
  exception raised to the corresponding point of the source.
-/

/-! ### Calendar model (Python `datetime`, date part) -/

/-- Leap-year test, as in the Gregorian calendar used by `datetime`. -/
def isLeap (y : Nat) : Bool :=
  (y % 4 == 0 && !(y % 100 == 0)) || (y % 400 == 0)

/-- Number of days in month `m` of year `y` (0 for out-of-range months). -/
def daysInMonth (y m : Nat) : Nat :=
  match m with
  | 1 => 31
  | 2 => if isLeap y then 29 else 28
  | 3 => 31
  | 4 => 30
  | 5 => 31
  | 6 => 30
  | 7 => 31
  | 8 => 31
  | 9 => 30
  | 10 => 31
  | 11 => 30
  | 12 => 31
  | _ => 0

/-- Days in year `y` strictly before month `m` (so `daysBeforeMonth y 1 = 0`). -/
def daysBeforeMonth (y m : Nat) : Nat :=
  match m with
  | 0 => 0
  | m' + 1 => daysBeforeMonth y m' + daysInMonth y m'

/-- Days strictly before January 1 of year `y`, as in CPython's
`datetime._days_before_year`. -/
def daysBeforeYear (y : Nat) : Nat :=
  365 * (y - 1) + (y - 1) / 4 - (y - 1) / 100 + (y - 1) / 400

/-- Validity of a (year, month, day) triple for Python `datetime`:
years 1..9999, months 1..12, days 1..`daysInMonth`. -/
def isValidDate (y m d : Nat) : Prop :=
  1 ≤ y ∧ y ≤ 9999 ∧ 1 ≤ m ∧ m ≤ 12 ∧ 1 ≤ d ∧ d ≤ daysInMonth y m

instance (y m d : Nat) : Decidable (isValidDate y m d) := by
  unfold isValidDate; infer_instance

/-- A Python `datetime` value at midnight: a valid calendar date. -/
structure PyDate where
  y : Nat
  m : Nat
  d : Nat
  valid : isValidDate y m d

instance : DecidableEq PyDate := fun a b =>
  decidable_of_iff (a.y = b.y ∧ a.m = b.m ∧ a.d = b.d) (by
    cases a; cases b; simp)

/-- Proleptic-Gregorian day ordinal: `toOrdinal ⟨1,1,1,_⟩ = 1`, matching
`datetime.toordinal()`. -/
def toOrdinal (a : PyDate) : Nat :=
  daysBeforeYear a.y + daysBeforeMonth a.y a.m + a.d

/-- Chronological order on `datetime` values (lexicographic on the fields,
which is how Python compares them). -/
def dateLe (a b : PyDate) : Prop :=
  a.y < b.y ∨ (a.y = b.y ∧ (a.m < b.m ∨ (a.m = b.m ∧ a.d ≤ b.d)))

/-- Strict chronological order on `datetime` values. -/
def dateLt (a b : PyDate) : Prop :=
  a.y < b.y ∨ (a.y = b.y ∧ (a.m < b.m ∨ (a.m = b.m ∧ a.d < b.d)))

instance (a b : PyDate) : Decidable (dateLe a b) := by unfold dateLe; infer_instance

instance (a b : PyDate) : Decidable (dateLt a b) := by unfold dateLt; infer_instance

/-- The largest representable Python `datetime` date, 9999-12-31. -/
def dateMax : PyDate := ⟨9999, 12, 31, by decide⟩

/-- Adding `timedelta(days=1)` to a `datetime`: `none` models the
`OverflowError` CPython raises when the result would pass `datetime.max`. -/
def addDay (a : PyDate) : Option PyDate :=
  if hmax : a = dateMax then none
  else if hd : a.d < daysInMonth a.y a.m then
    some ⟨a.y, a.m, a.d + 1, by
      have hv := a.valid
      unfold isValidDate at hv ⊢
      omega⟩
  else if hm : a.m < 12 then
    some ⟨a.y, a.m + 1, 1, by
      have hv := a.valid
      unfold isValidDate at hv ⊢
      refine ⟨hv.1, hv.2.1, by omega, by omega, by omega, ?_⟩
      have h : ∀ k, 1 ≤ k → k ≤ 12 → 1 ≤ daysInMonth a.y k := by
        intro k hk1 hk2
        interval_cases k <;> simp [daysInMonth] <;> split <;> omega
      exact h (a.m + 1) (by omega) (by omega)⟩
  else
    some ⟨a.y + 1, 1, 1, by
      have hv := a.valid
      unfold isValidDate at hv ⊢
      have hm12 : a.m = 12 := by omega
      have hdim : daysInMonth a.y a.m = 31 := by rw [hm12]; rfl
      have hd31 : a.d = 31 := by omega
      have hy : a.y ≠ 9999 := fun hy => by
        apply hmax
        cases a
        simp_all [dateMax]
      have hjan : daysInMonth (a.y + 1) 1 = 31 := rfl
      refine ⟨by omega, by omega, by omega, by omega, by omega, by omega⟩⟩

/-! ### Statements and ASCII character classes

Statements (Python `str` values) are lists of characters.  Character
classes follow Python `re` on ASCII text: `\s` is the ASCII whitespace
range (TAB..CR, FS..US, SPACE), `\d` is `0`-`9`, and `re.IGNORECASE`
comparison folds `A`-`Z` onto `a`-`z`. -/

instance {ε α : Type} [DecidableEq ε] [DecidableEq α] : DecidableEq (Except ε α)
  | .error e, .error f => decidable_of_iff (e = f) (by simp)
  | .error _, .ok _ => isFalse (by simp)
  | .ok _, .error _ => isFalse (by simp)
  | .ok a, .ok b => decidable_of_iff (a = b) (by simp)

/-- A SQL statement of the input script. -/
abbrev Stmt := List Char

/-- ASCII lower-casing on character codes. -/
def lowN (n : Nat) : Nat := if 65 ≤ n ∧ n ≤ 90 then n + 32 else n

/-- Case-insensitive character comparison (`re.IGNORECASE` on ASCII). -/
def ciEq (c p : Char) : Bool := lowN c.toNat == lowN p.toNat

/-- Python regex `\s` on ASCII text (also the characters `str.strip` removes). -/
def isWsCh (c : Char) : Bool :=
  (9 ≤ c.toNat && c.toNat ≤ 13) || c.toNat == 32 || (28 ≤ c.toNat && c.toNat ≤ 31)

/-- Python regex `\d` on ASCII text. -/
def isDigitCh (c : Char) : Bool := 48 ≤ c.toNat && c.toNat ≤ 57

/-- The character class `[\d-]` of the substitution pattern. -/
def isDigitDashCh (c : Char) : Bool := isDigitCh c || c.toNat == 45

/-- The character class `["']` of both patterns. -/
def isQuoteCh (c : Char) : Bool := c.toNat == 34 || c.toNat == 39

/-- The double-quote character. -/
def dquoteCh : Char := Char.ofNat 34

/-- The single-quote character. -/
def squoteCh : Char := Char.ofNat 39

/-- The literal `SET` of both patterns (matched case-insensitively). -/
def setLit : List Char := "set".data

/-- The start marker `@start_date` (matched case-insensitively). -/
def startMarker : List Char := "@start_date".data

/-- The end marker `@end_date` (matched case-insensitively). -/
def endMarker : List Char := "@end_date".data

/-- Match a literal pattern `p` case-insensitively at the head of the input,
returning the consumed input characters and the remainder. -/
def matchLitCI : List Char → List Char → Option (List Char × List Char)
  | [], cs => some ([], cs)
  | _ :: _, [] => none
  | p :: ps, c :: cs =>
    if ciEq c p then
      match matchLitCI ps cs with
      | some (a, r) => some (c :: a, r)
      | none => none
    else none

/-- Maximal munch of a character class: the greedy sub-patterns `\s+`, `\s*`
and `[\d-]+` of the source's regexes are each followed by a character
outside their class, so maximal munch is their exact semantics. -/
def munch (f : Char → Bool) (cs : List Char) : List Char × List Char :=
  (cs.takeWhile f, cs.dropWhile f)

/-- Match `SET\s+<marker>\s*=\s*` (the common head of both patterns) at the
start of the input; returns the consumed characters and the remainder. -/
def matchHeadAt (marker : List Char) (cs : List Char) : Option (List Char × List Char) :=
  match matchLitCI setLit cs with
  | none => none
  | some (a1, r1) =>
    let w1 := (munch isWsCh r1).1
    let r2 := (munch isWsCh r1).2
    if w1.isEmpty then none
    else
      match matchLitCI marker r2 with
      | none => none
      | some (a2, r3) =>
        let w2 := (munch isWsCh r3).1
        let r4 := (munch isWsCh r3).2
        match r4 with
        | [] => none
        | c :: r5 =>
          if c = '=' then
            let w3 := (munch isWsCh r5).1
            let r6 := (munch isWsCh r5).2
            some (a1 ++ w1 ++ a2 ++ w2 ++ c :: w3, r6)
          else none

/-- Match exactly `n` digits at the head of the input. -/
def takeDigits : Nat → List Char → Option (List Char × List Char)
  | 0, cs => some ([], cs)
  | _ + 1, [] => none
  | n + 1, c :: cs =>
    if isDigitCh c then
      match takeDigits n cs with
      | some (a, r) => some (c :: a, r)
      | none => none
    else none

/-- Match `["'](\d{4}-\d{2}-\d{2})["']` at the start of the input, returning
the captured group (the ten date characters without the quotes) and the
remainder after the closing quote. -/
def matchQuotedDate (cs : List Char) : Option (List Char × List Char) :=
  match cs with
  | [] => none
  | q1 :: r1 =>
    if isQuoteCh q1 then
      match takeDigits 4 r1 with
      | none => none
      | some (d4, r2) =>
        match r2 with
        | [] => none
        | c1 :: r3 =>
          if c1 = '-' then
            match takeDigits 2 r3 with
            | none => none
            | some (m2, r4) =>
              match r4 with
              | [] => none
              | c2 :: r5 =>
                if c2 = '-' then
                  match takeDigits 2 r5 with
                  | none => none
                  | some (d2, r6) =>
                    match r6 with
                    | [] => none
                    | q2 :: r7 =>
                      if isQuoteCh q2 then some (d4 ++ c1 :: m2 ++ c2 :: d2, r7)
                      else none
                else none
          else none
    else none

/-- Attempt the search pattern
`SET\s+<marker>\s*=\s*["'](\d{4}-\d{2}-\d{2})["']` anchored at the start of
the input; returns the captured date text. -/
def matchP1At (marker : List Char) (cs : List Char) : Option (List Char) :=
  match matchHeadAt marker cs with
  | none => none
  | some (_, r) =>
    match matchQuotedDate r with
    | none => none
    | some (lit, _) => some lit

/-- `re.search` of the date pattern: the first (leftmost) match in the
statement, returning its captured date text. -/
def findDateLit (marker : List Char) : List Char → Option (List Char)
  | [] => none
  | c :: cs =>
    match matchP1At marker (c :: cs) with
    | some lit => some lit
    | none => findDateLit marker cs

/-- Attempt the substitution pattern
`(SET\s+<marker>\s*=\s*)["'][\d-]+["']` anchored at the start of the input;
returns the consumed group-1 text and the remainder after the match. -/
def matchP2At (marker : List Char) (cs : List Char) : Option (List Char × List Char) :=
  match matchHeadAt marker cs with
  | none => none
  | some (h, r) =>
    match r with
    | [] => none
    | q1 :: r1 =>
      if isQuoteCh q1 then
        let run := (munch isDigitDashCh r1).1
        let r2 := (munch isDigitDashCh r1).2
        if run.isEmpty then none
        else
          match r2 with
          | [] => none
          | q2 :: r3 => if isQuoteCh q2 then some (h, r3) else none
      else none

/-- One fuel-indexed pass of `re.sub`: scan left to right; at each position
replace a match of the substitution pattern by group 1 followed by the
double-quoted day text, then continue after the match (non-overlapping, as
`re.sub` does).  The fuel (initially the input length, which suffices since
every step consumes at least one character) only guarantees structural
recursion. -/
def subAux (marker day : List Char) : Nat → List Char → List Char
  | 0, cs => cs
  | fuel + 1, cs =>
    match cs with
    | [] => []
    | c :: rest =>
      match matchP2At marker cs with
      | some (h, restAfter) =>
        h ++ dquoteCh :: (day ++ dquoteCh :: subAux marker day fuel restAfter)
      | none => c :: subAux marker day fuel rest

/-- `re.sub(pattern, r'\1"<day>"', statement, flags=re.IGNORECASE)` for the
substitution pattern of the given marker: note the replacement always uses
double quotes, whatever quotes the input used. -/
def pySubMarker (marker day cs : List Char) : List Char :=
  subAux marker day cs.length cs

/-- Case-insensitive "starts with" on character lists. -/
def ciStartsWith (p cs : List Char) : Bool := (matchLitCI p cs).isSome

/-- Python `needle in hay.lower()` for an ASCII lowercase needle. -/
def ciContains (needle : List Char) : List Char → Bool
  | [] => ciStartsWith needle []
  | c :: cs => ciStartsWith needle (c :: cs) || ciContains needle cs

/-- Python `str.strip()` on ASCII text: remove whitespace at both ends. -/
def pyStrip (cs : List Char) : List Char :=
  ((cs.dropWhile isWsCh).reverse.dropWhile isWsCh).reverse

/-- The source's classification of a statement as a variable assignment:
`query.strip().upper().startswith('SET')` (on ASCII text, upper-casing and
comparing with `SET` is case-insensitive comparison with `set`). -/
def isSetStmt (q : Stmt) : Bool := ciStartsWith setLit (pyStrip q)

/-- `datetime.strptime(text, '%Y-%m-%d')`, returning `none` where CPython
raises `ValueError` (wrong shape, or an invalid calendar date such as a
thirtieth of February, or year 0). -/
def pyStrptime (cs : List Char) : Option PyDate :=
  match cs with
  | [y1, y2, y3, y4, c1, m1, m2, c2, d1, d2] =>
    if isDigitCh y1 && isDigitCh y2 && isDigitCh y3 && isDigitCh y4 &&
       isDigitCh m1 && isDigitCh m2 && isDigitCh d1 && isDigitCh d2 &&
       (c1 = '-' : Bool) && (c2 = '-' : Bool) then
      let y := (y1.toNat - 48) * 1000 + (y2.toNat - 48) * 100 +
               (y3.toNat - 48) * 10 + (y4.toNat - 48)
      let m := (m1.toNat - 48) * 10 + (m2.toNat - 48)
      let d := (d1.toNat - 48) * 10 + (d2.toNat - 48)
      if h : isValidDate y m d then some ⟨y, m, d, h⟩ else none
    else none
  | _ => none

/-- One statement of `extract_date_range`'s loop (lines 79-88 of the
source): search for each marker's pattern; on a match, parse the captured
text with `strptime` (which may raise, aborting the whole extraction) and
overwrite the corresponding component. -/
def extractStep (st : Option PyDate × Option PyDate) (q : Stmt) :
    Except Unit (Option PyDate × Option PyDate) := do
  let st1 ←
    match findDateLit startMarker q with
    | some lit =>
      match pyStrptime lit with
      | some dt => Except.ok (some dt, st.2)
      | none => Except.error ()
    | none => Except.ok st
  match findDateLit endMarker q with
  | some lit =>
    match pyStrptime lit with
    | some dt => Except.ok (st1.1, some dt)
    | none => Except.error ()
  | none => Except.ok st1

/-- `extract_date_range` (source lines 66-90): fold the per-statement step
over the statements; later statements override earlier ones.  A `.error`
result models a `ValueError` escaping the function. -/
def extract_date_range (qs : List Stmt) :
    Except Unit (Option PyDate × Option PyDate) :=
  qs.foldlM extractStep (none, none)

/-- Fuel-indexed body of `generate_daily_ranges`'s `while` loop.  Each
iteration appends `(current, current)` and advances by one day; `addDay`
returning `none` models the `OverflowError` raised by
`current_date += timedelta(days=1)` at 9999-12-31, which discards the
locally accumulated list and escapes the function. -/
def genAux : Nat → PyDate → PyDate → Except Unit (List (PyDate × PyDate))
  | 0, _, _ => .ok []
  | fuel + 1, s, e =>
    if dateLe s e then
      match addDay s with
      | none => .error ()
      | some s2 =>
        match genAux fuel s2 e with
        | .ok rest => .ok ((s, s) :: rest)
        | .error u => .error u
    else .ok []

/-- `generate_daily_ranges` (source lines 93-111).  The fuel
`toOrdinal e + 2 - toOrdinal s` strictly dominates the iteration count of
the loop, so the result is exactly the loop's behaviour. -/
def generate_daily_ranges (s e : PyDate) : Except Unit (List (PyDate × PyDate)) :=
  genAux (toOrdinal e + 2 - toOrdinal s) s e

/-- Difference of two dates in days, as `end - start` would measure it. -/
def daysBetween (s e : PyDate) : Nat := toOrdinal e - toOrdinal s

/-- The decimal digit character for `n % 10`. -/
def dChar (n : Nat) : Char := "0123456789".data.getD (n % 10) (Char.ofNat 48)

/-- `datetime.strftime('%Y-%m-%d')`: zero-padded 4-2-2 decimal rendering. -/
def strftimeYMD (a : PyDate) : List Char :=
  [dChar (a.y / 1000), dChar (a.y / 100), dChar (a.y / 10), dChar a.y,
   '-', dChar (a.m / 10), dChar a.m, '-', dChar (a.d / 10), dChar a.d]

/-! ### Database model and the two execution paths

The MySQL connection is an external collaborator.  A `DB` is its abstract
behaviour: executing one statement maps the current session state to a new
session state together with either an error (a raised
`mysql.connector.Error`) or an optional result set.  `none` models
`cursor.description is None` (side-effect-only statements); when a result
set is present its column-descriptor tuple is non-empty, as for every MySQL
result set.  The session state records the values of the two session
variables the tool manipulates. -/

/-- MySQL session state: the current values of `@start_date` and
`@end_date` (as the quoted strings assigned to them), if set. -/
structure Session where
  sv : Option (List Char)
  ev : Option (List Char)
deriving DecidableEq

/-- Abstract database behaviour: per-statement execution. -/
structure DB where
  exec : Stmt → Session → Session × Except String (Option (List String × List (List String)))

/-- State of `execute_query_daily_to_csv`'s loop: the session, the captured
column names (`column_names`), the accumulated rows (`all_results`) and the
trace of statement texts passed to `cursor.execute` so far. -/
structure RunSt where
  sess : Session
  cols : Option (List String)
  acc : List (List String)
  trace : List Stmt
deriving DecidableEq

/-- Initial loop state on a connection whose session is `s0`. -/
def initSt (s0 : Session) : RunSt := ⟨s0, none, [], []⟩

/-- The per-day rewriting of a SET statement (source lines 192-207): if the
original statement mentions `@start_date` (case-insensitively), substitute
the day's start into it; then, if the original statement mentions
`@end_date`, substitute the day's end into the result. -/
def rewriteForDay (d1 d2 : PyDate) (q : Stmt) : Stmt :=
  let m1 := if ciContains startMarker q then pySubMarker startMarker (strftimeYMD d1) q else q
  if ciContains endMarker q then pySubMarker endMarker (strftimeYMD d2) m1 else m1

/-- The text actually passed to `cursor.execute` for statement `q` on the
chunk `(d1, d2)`. -/
def scheduleStmt (d1 d2 : PyDate) (q : Stmt) : Stmt :=
  if isSetStmt q then rewriteForDay d1 d2 q else q

/-- One statement of the chunked executor's inner loop (source lines
190-220): SET statements are executed (rewritten when they mention a
marker) and their results are never inspected; any other statement is
executed verbatim, the column names are captured on the first statement
that yields a result description, and all its rows are fetched and
appended. -/
def stepStmt (db : DB) (d1 d2 : PyDate) (st : RunSt) (q : Stmt) : RunSt × Option String :=
  if isSetStmt q then
    let mq := rewriteForDay d1 d2 q
    match db.exec mq st.sess with
    | (s2, .error e) => ({ st with sess := s2, trace := st.trace ++ [mq] }, some e)
    | (s2, .ok _) => ({ st with sess := s2, trace := st.trace ++ [mq] }, none)
  else
    match db.exec q st.sess with
    | (s2, .error e) => ({ st with sess := s2, trace := st.trace ++ [q] }, some e)
    | (s2, .ok none) => ({ st with sess := s2, trace := st.trace ++ [q] }, none)
    | (s2, .ok (some (cns, rows))) =>
      ({ sess := s2,
         cols := match st.cols with | none => some cns | some c => some c,
         acc := st.acc ++ rows,
         trace := st.trace ++ [q] }, none)

/-- Run the statement sequence for one chunk, stopping at the first raised
database error. -/
def runStmts (db : DB) (d1 d2 : PyDate) : RunSt → List Stmt → RunSt × Option String
  | st, [] => (st, none)
  | st, q :: qs =>
    match stepStmt db d1 d2 st q with
    | (st2, some e) => (st2, some e)
    | (st2, none) => runStmts db d1 d2 st2 qs

/-- Run all chunks in order, stopping at the first raised database error. -/
def runDays (db : DB) (queries : List Stmt) : RunSt → List (PyDate × PyDate) → RunSt × Option String
  | st, [] => (st, none)
  | st, (d1, d2) :: ds =>
    match runStmts db d1 d2 st queries with
    | (st2, some e) => (st2, some e)
    | (st2, none) => runDays db queries st2 ds

/-- The full nominal execution schedule of a chunked run: for every chunk
in order, every statement in order, with SET statements rewritten. -/
def chunkSchedule (queries : List Stmt) (ds : List (PyDate × PyDate)) : List Stmt :=
  ds.flatMap (fun p => queries.map (scheduleStmt p.1 p.2))

/-- The body of `execute_query_daily_to_csv`'s `try` block (source lines
168-238): re-extract the range (`.ok (false, ...)` is the early
`return False` when a marker is missing), generate the daily chunks,
execute them, and assemble the combined CSV (header row then all
accumulated rows) when column names were captured — `if column_names:`
is false both for `None` and for an empty list.  A `.error` result is an
exception reaching the `except` handlers, paired with the trace of
statements executed before it. -/
def dailyBody (db : DB) (s0 : Session) (queries : List Stmt) :
    Except (String × List Stmt) (Bool × Option (List (List String)) × List Stmt) :=
  match extract_date_range queries with
  | .error _ => .error ("ValueError", [])
  | .ok (os, oe) =>
    match os, oe with
    | some s, some e =>
      match generate_daily_ranges s e with
      | .error _ => .error ("OverflowError", [])
      | .ok days =>
        match runDays db queries (initSt s0) days with
        | (st, some err) => .error (err, st.trace)
        | (st, none) =>
          match st.cols with
          | some (c :: cs) => .ok (true, some ((c :: cs) :: st.acc), st.trace)
          | _ => .ok (true, none, st.trace)
    | _, _ => .ok (false, none, [])

/-- `execute_query_daily_to_csv` (source lines 156-245): the `try` body
with every exception caught and turned into a `False` return, no file
written.  Returns (returned boolean, combined CSV contents if written,
executed-statement trace). -/
def execute_query_daily_to_csv (db : DB) (s0 : Session) (queries : List Stmt) :
    Bool × Option (List (List String)) × List Stmt :=
  match dailyBody db s0 queries with
  | .ok r => r
  | .error (_, tr) => (false, none, tr)

/-- `execute_query_to_csv` (source lines 114-153): execute one statement;
with no result description, write nothing and return `True`; with a result
set, write header and rows (even when there are zero rows) and return
`True`; on a database error return `False`.  Returns the session left by
the statement, the returned boolean and the file contents if written. -/
def execute_query_to_csv (db : DB) (q : Stmt) (sess : Session) :
    Session × Bool × Option (List (List String)) :=
  match db.exec q sess with
  | (s2, .error _) => (s2, false, none)
  | (s2, .ok none) => (s2, true, none)
  | (s2, .ok (some (cns, rows))) => (s2, true, some (cns :: rows))

/-- The non-chunked loop of `main` (source lines 402-410): run each
statement through `execute_query_to_csv` on the shared connection,
collecting each statement's file (if any) and the success count. -/
def runSingle (db : DB) : Session → List Stmt → Session × List (Option (List (List String))) × Nat
  | sess, [] => (sess, [], 0)
  | sess, q :: qs =>
    match execute_query_to_csv db q sess with
    | (s2, ok2, f) =>
      match runSingle db s2 qs with
      | (s3, fs, n) => (s3, f :: fs, (if ok2 then 1 else 0) + n)

/-- Session threading of a statement sequence executed plainly in order
(errors or not, the connection keeps its session). -/
def sessFoldPlain (db : DB) : Session → List Stmt → Session
  | sess, [] => sess
  | sess, q :: qs => sessFoldPlain db (db.exec q sess).1 qs

/-- Session threading of a statement sequence executed through the chunked
rewriting for chunk `(d1, d2)`, stopping at the first error. -/
def sessFoldChunk (db : DB) (d1 d2 : PyDate) : Session → List Stmt → Session × Option String
  | sess, [] => (sess, none)
  | sess, q :: qs =>
    match db.exec (rewriteForDay d1 d2 q) sess with
    | (s2, .error e) => (s2, some e)
    | (s2, .ok _) => sessFoldChunk db d1 d2 s2 qs

/-- Header row created on first write of the run log (source line 279). -/
def logHeader : List String :=
  ["date", "start date", "end date", "total time(sec)", "status", "sql query"]

/-- `append_run_log` (source lines 262-280): `old` is the current contents
of the log file (`none` when the file does not exist).  The row is written
in append mode; if the file was absent the header row is written first. -/
def append_run_log (old : Option (List (List String))) (row : List String) :
    List (List String) :=
  match old with
  | none => [logHeader, row]
  | some rows => rows ++ [row]

/-- Outcome of one invocation of `main` past the connection step. -/
structure MainOut where
  status : String
  dailyFile : Option (List (List String))
  singleFiles : List (Option (List (List String)))
  trace : List Stmt
  log : List (List String)
deriving DecidableEq

/-- The execution phase of `main` (source lines 375-431), starting at the
`extract_date_range` call of line 380 on a fresh connection: choose chunked
or per-statement execution, determine the `status`, and append exactly one
run-log row.  The four timing cells of the row are the abstract `meta` and
the verbatim script text is `script`.  A `.error` result models the
uncaught `ValueError` when line 380's extraction raises: the process dies
before executing any statement and before writing any log entry. -/
def main_run (db : DB) (queries : List Stmt) (old : Option (List (List String)))
    (meta : List String) (script : String) : Except Unit MainOut :=
  match extract_date_range queries with
  | .error _ => .error ()
  | .ok (os, oe) =>
    match os, oe with
    | some _, some _ =>
      match execute_query_daily_to_csv db ⟨none, none⟩ queries with
      | (ok2, f, tr) =>
        let status := if ok2 then "success" else "failure"
        .ok ⟨status, f, [], tr, append_run_log old (meta ++ [status, script])⟩
    | _, _ =>
      match runSingle db ⟨none, none⟩ queries with
      | (_, fs, n) =>
        let status := if n < queries.length then "failure" else "success"
        .ok ⟨status, none, fs, [], append_run_log old (meta ++ [status, script])⟩

/-! ### Helper definitions for the stated properties and concrete instances -/

/-- The last statement-order match of the marker's search pattern across the
statement sequence (later statements override earlier ones). -/
def lastDateLit (marker : List Char) : List Stmt → Option (List Char)
  | [] => none
  | q :: qs =>
    match lastDateLit marker qs with
    | some lit => some lit
    | none => findDateLit marker q

/-- True when the substitution pattern matches at some position. -/
def hasP2 (marker : List Char) : List Char → Bool
  | [] => false
  | c :: cs => (matchP2At marker (c :: cs)).isSome || hasP2 marker cs

/-- The date 2024-01-01. -/
def dayA : PyDate := ⟨2024, 1, 1, by decide⟩

/-- The date 2024-01-02. -/
def dayB : PyDate := ⟨2024, 1, 2, by decide⟩

/-- A concrete start-marker assignment statement. -/
def set1C : Stmt := "SET @start_date = \"2024-01-01\"".data

/-- A concrete end-marker assignment statement. -/
def set2C : Stmt := "SET @end_date = \"2024-01-02\"".data

/-- A concrete data statement. -/
def selC : Stmt := "SELECT day FROM t".data

/-- A concrete script: the two marker assignments and one data statement. -/
def scriptC : List Stmt := [set1C, set2C, selC]

/-- The text between the first pair of double quotes of a statement. -/
def quotedPart (q : Stmt) : List Char :=
  ((q.dropWhile (fun c => !(c == dquoteCh))).drop 1).takeWhile (fun c => !(c == dquoteCh))

/-- The session update a MySQL server performs for the double-quoted marker
assignment statements occurring in the concrete scripts here. -/
def sessionUpdate (q : Stmt) (sess : Session) : Session :=
  let s1 := if ciContains startMarker q then { sess with sv := some (quotedPart q) } else sess
  if ciContains endMarker q then { s1 with ev := some (quotedPart q) } else s1

/-- A MySQL-like database: a SET statement updates the session and yields no
result description; any other statement leaves the session unchanged and
returns the result `dataF` of the current session. -/
def mysqlLike (dataF : Session → Option (List String × List (List String))) : DB :=
  ⟨fun q sess =>
    if isSetStmt q then (sessionUpdate q sess, .ok none)
    else (sess, .ok (dataF sess))⟩

/-- Day-decomposable result data: one row per day of the session's bound
date range (like a `SELECT` of a date column constrained by the markers). -/
def rowsOfSession (sess : Session) : List (List String) :=
  match sess.sv, sess.ev with
  | some a, some b =>
    match pyStrptime a, pyStrptime b with
    | some da, some db2 =>
      match generate_daily_ranges da db2 with
      | .ok ds => ds.map (fun p => [String.mk (strftimeYMD p.1)])
      | .error _ => []
    | _, _ => []
  | _, _ => []

/-- A MySQL-like database whose data statement is day-decomposable. -/
def dbDaily : DB := mysqlLike (fun sess => some (["day"], rowsOfSession sess))

/-- A MySQL-like database whose data statement returns one constant row
whatever the bound range is (like `SELECT COUNT` style aggregates, its
result over a range is not the concatenation of its per-day results). -/
def dbConstRow : DB := mysqlLike (fun _ => some (["c"], [["R"]]))

/-- A database on which every execution raises an error. -/
def dbFail : DB := ⟨fun _ sess => (sess, .error "boom")⟩

/-- A database on which every statement executes without a result set. -/
def dbNoResult : DB := ⟨fun _ sess => (sess, .ok none)⟩

/-- A database on which every statement yields a result set with a header
and zero rows. -/
def dbEmptyRows : DB := ⟨fun _ sess => (sess, .ok (some (["c"], [])))⟩

/-- Statements whose marker assignments carry malformed date text that does
not have the quoted `NNNN-NN-NN` shape. -/
def malformedScript : List Stmt :=
  ["SET @start_date = \"not-a-date\"".data, "SET @end_date = 2024-01-01".data]

/-- A script with a repeated, differently-cased start-marker assignment. -/
def overrideScript : List Stmt :=
  [set1C, "Set @Start_Date=\"2024-03-04\"".data, "SET @end_date = \"2024-05-06\"".data]

/-- A start-marker assignment whose date literal is single-quoted. -/
def squotedSet : Stmt :=
  "SET @start_date = ".data ++ squoteCh :: ("2024-01-01".data ++ [squoteCh])

/-- The statement with a regex-shaped but invalid calendar date. -/
def invalidDateStmt : Stmt := "SET @start_date = \"2024-02-30\"".data

/-- The per-day chunk list for the range 2024-01-01 .. 2024-01-02. -/
def dsC : List (PyDate × PyDate) := [(dayA, dayA), (dayB, dayB)]

/-- The loop state after the first statement of `scriptC` raises on `dbFail`. -/
def stC : RunSt := ⟨⟨none, none⟩, none, [], [set1C]⟩

/-- The outcome of `main_run` on an empty script over `dbNoResult`. -/
def outW : MainOut := ⟨"success", none, [], [], [logHeader, ["success", ""]]⟩

/-! ### Lemmas and theorems -/

theorem eq_of_date_fields {a b : PyDate} (hy : a.y = b.y) (hm : a.m = b.m)
    (hd : a.d = b.d) : a = b := by
  cases a; cases b; simp_all

theorem daysBeforeMonth_succ (y m : Nat) :
    daysBeforeMonth y (m + 1) = daysBeforeMonth y m + daysInMonth y m := rfl

theorem daysBeforeMonth_mono (y : Nat) {m m' : Nat} (h : m ≤ m') :
    daysBeforeMonth y m ≤ daysBeforeMonth y m' := by
  induction m' with
  | zero => simp_all
  | succ k ih =>
    rcases Nat.lt_or_ge m (k + 1) with hlt | hge
    · have := ih (by omega)
      rw [daysBeforeMonth_succ]
      omega
    · have : m = k + 1 := by omega
      subst this
      exact le_refl _

theorem daysBeforeMonth_year (y : Nat) :
    daysBeforeMonth y 13 = 365 + (if isLeap y then 1 else 0) := by
  show daysBeforeMonth y 13 = _
  simp only [daysBeforeMonth, daysInMonth]
  split <;> omega

theorem daysBeforeYear_form (z : Nat) :
    daysBeforeYear (z + 1) = 365 * z + z / 4 - z / 100 + z / 400 := by
  unfold daysBeforeYear
  simp

set_option maxHeartbeats 1000000 in
theorem daysBeforeYear_succ (y : Nat) (hy : 1 ≤ y) :
    daysBeforeYear (y + 1) = daysBeforeYear y + 365 + (if isLeap y then 1 else 0) := by
  obtain ⟨z, rfl⟩ : ∃ z, y = z + 1 := ⟨y - 1, by omega⟩
  rw [show z + 1 + 1 = (z + 1) + 1 from rfl, daysBeforeYear_form (z + 1),
    daysBeforeYear_form z]
  unfold isLeap
  split
  · rename_i hL
    simp only [Bool.or_eq_true, Bool.and_eq_true, beq_iff_eq, Bool.not_eq_true',
      beq_eq_false_iff_ne, ne_eq] at hL
    omega
  · rename_i hL
    simp only [Bool.or_eq_true, Bool.and_eq_true, beq_iff_eq, Bool.not_eq_true',
      beq_eq_false_iff_ne, ne_eq, not_or] at hL
    omega

theorem daysBeforeYear_mono {y y' : Nat} (h : y ≤ y') (hy : 1 ≤ y) :
    daysBeforeYear y ≤ daysBeforeYear y' := by
  induction y' with
  | zero => omega
  | succ k ih =>
    rcases Nat.lt_or_ge y (k + 1) with hlt | hge
    · have hk : 1 ≤ k := by omega
      have := ih (by omega)
      rw [daysBeforeYear_succ k hk]
      omega
    · have : y = k + 1 := by omega
      subst this
      exact le_refl _

/-- The ordinal of any date of year `y` is at most the ordinal of the last
day of year `y`, which is `daysBeforeYear (y+1)`. -/
theorem toOrdinal_le_year_end (a : PyDate) :
    toOrdinal a ≤ daysBeforeYear (a.y + 1) := by
  have hv := a.valid
  unfold isValidDate at hv
  have h1 : daysBeforeMonth a.y a.m + a.d ≤ daysBeforeMonth a.y (a.m + 1) := by
    rw [daysBeforeMonth_succ]; omega
  have h2 : daysBeforeMonth a.y (a.m + 1) ≤ daysBeforeMonth a.y 13 :=
    daysBeforeMonth_mono a.y (by omega)
  have h3 := daysBeforeMonth_year a.y
  have h4 := daysBeforeYear_succ a.y hv.1
  unfold toOrdinal
  omega

theorem toOrdinal_pos (a : PyDate) : daysBeforeYear a.y < toOrdinal a := by
  have hv := a.valid
  unfold isValidDate at hv
  unfold toOrdinal
  omega

/-- Strict monotonicity of the ordinal with respect to chronological order. -/
theorem toOrdinal_lt_of_dateLt {a b : PyDate} (h : dateLt a b) :
    toOrdinal a < toOrdinal b := by
  have hva := a.valid
  have hvb := b.valid
  unfold isValidDate at hva hvb
  rcases h with hy | ⟨hy, hrest⟩
  · have h1 := toOrdinal_le_year_end a
    have h2 : daysBeforeYear (a.y + 1) ≤ daysBeforeYear b.y :=
      daysBeforeYear_mono (by omega) (by omega)
    have h3 := toOrdinal_pos b
    omega
  · rcases hrest with hm | ⟨hm, hd⟩
    · have h1 : daysBeforeMonth a.y a.m + a.d ≤ daysBeforeMonth a.y (a.m + 1) := by
        rw [daysBeforeMonth_succ]; omega
      have h2 : daysBeforeMonth a.y (a.m + 1) ≤ daysBeforeMonth b.y b.m := by
        rw [hy]; exact daysBeforeMonth_mono b.y (by omega)
      unfold toOrdinal
      rw [hy] at *
      omega
    · unfold toOrdinal
      rw [hy, hm]
      omega

theorem dateLe_total (a b : PyDate) : dateLe a b ∨ dateLe b a := by
  unfold dateLe; omega

theorem dateLt_of_not_dateLe {a b : PyDate} (h : ¬ dateLe a b) : dateLt b a := by
  unfold dateLe at h
  unfold dateLt
  omega

theorem dateLe_of_dateLt {a b : PyDate} (h : dateLt a b) : dateLe a b := by
  unfold dateLt at h; unfold dateLe; omega

theorem dateLe_refl (a : PyDate) : dateLe a a := by unfold dateLe; omega

theorem dateLt_or_eq_of_dateLe {a b : PyDate} (h : dateLe a b) :
    dateLt a b ∨ a = b := by
  unfold dateLe at h
  by_cases hy : a.y = b.y
  · by_cases hm : a.m = b.m
    · by_cases hd : a.d = b.d
      · exact Or.inr (eq_of_date_fields hy hm hd)
      · left; unfold dateLt; omega
    · left; unfold dateLt; omega
  · left; unfold dateLt; omega

/-- The ordinal reflects chronological order. -/
theorem dateLe_iff_toOrdinal_le {a b : PyDate} :
    dateLe a b ↔ toOrdinal a ≤ toOrdinal b := by
  constructor
  · intro h
    rcases dateLt_or_eq_of_dateLe h with hlt | heq
    · exact le_of_lt (toOrdinal_lt_of_dateLt hlt)
    · subst heq; exact le_refl _
  · intro h
    by_contra hn
    have := toOrdinal_lt_of_dateLt (dateLt_of_not_dateLe hn)
    omega

theorem dateLt_iff_toOrdinal_lt {a b : PyDate} :
    dateLt a b ↔ toOrdinal a < toOrdinal b := by
  constructor
  · exact toOrdinal_lt_of_dateLt
  · intro h
    by_cases hle : dateLe a b
    · rcases dateLt_or_eq_of_dateLe hle with hlt | heq
      · exact hlt
      · subst heq; omega
    · have := toOrdinal_lt_of_dateLt (dateLt_of_not_dateLe hle)
      omega

theorem toOrdinal_inj {a b : PyDate} (h : toOrdinal a = toOrdinal b) : a = b := by
  by_cases hle : dateLe a b
  · rcases dateLt_or_eq_of_dateLe hle with hlt | heq
    · have := toOrdinal_lt_of_dateLt hlt; omega
    · exact heq
  · have := toOrdinal_lt_of_dateLt (dateLt_of_not_dateLe hle); omega

/-- Every valid date is at most 9999-12-31. -/
theorem dateLe_dateMax (a : PyDate) : dateLe a dateMax := by
  have hv := a.valid
  unfold isValidDate at hv
  have hd : a.d ≤ 31 := by
    have h12 : a.m ≤ 12 := hv.2.2.2.1
    have h1 : 1 ≤ a.m := hv.2.2.1
    have := hv.2.2.2.2.2
    interval_cases a.m <;> simp [daysInMonth] at this <;> first
      | omega
      | (split at this <;> omega)
  unfold dateLe dateMax
  simp only
  omega

/-- Successor property of `addDay`: the ordinal increases by exactly one. -/
theorem toOrdinal_addDay {a b : PyDate} (h : addDay a = some b) :
    toOrdinal b = toOrdinal a + 1 := by
  have hv := a.valid
  unfold isValidDate at hv
  unfold addDay at h
  split at h
  · exact absurd h (by simp)
  · split at h
    · rename_i hd
      injection h with h'
      subst h'
      unfold toOrdinal
      simp only
      omega
    · split at h
      · rename_i hd hm
        injection h with h'
        subst h'
        unfold toOrdinal
        simp only
        rw [daysBeforeMonth_succ]
        omega
      · rename_i hd hm
        injection h with h'
        subst h'
        have hm12 : a.m = 12 := by omega
        have hd' : a.d = daysInMonth a.y a.m := by omega
        unfold toOrdinal
        simp only
        have h13 : daysBeforeMonth a.y 13 = 365 + (if isLeap a.y then 1 else 0) :=
          daysBeforeMonth_year a.y
        have hsucc : daysBeforeYear (a.y + 1) =
            daysBeforeYear a.y + 365 + (if isLeap a.y then 1 else 0) :=
          daysBeforeYear_succ a.y hv.1
        have hstep : daysBeforeMonth a.y 13 =
            daysBeforeMonth a.y 12 + daysInMonth a.y 12 := rfl
        have hb1 : daysBeforeMonth (a.y + 1) 1 = 0 := rfl
        rw [hb1]
        rw [hm12] at hd' ⊢
        omega

theorem addDay_eq_none_iff {a : PyDate} : addDay a = none ↔ a = dateMax := by
  constructor
  · intro h
    unfold addDay at h
    by_contra hne
    rw [dif_neg hne] at h
    split at h
    · exact Option.noConfusion h
    · split at h
      · exact Option.noConfusion h
      · exact Option.noConfusion h
  · intro h
    subst h
    unfold addDay
    rw [dif_pos rfl]

theorem dateLe_trans {a b c : PyDate} (h1 : dateLe a b) (h2 : dateLe b c) :
    dateLe a c := by
  rw [dateLe_iff_toOrdinal_le] at *
  omega

theorem eq_dateMax_of_dateMax_le {e : PyDate} (h : dateLe dateMax e) : e = dateMax := by
  apply toOrdinal_inj
  have h1 := dateLe_iff_toOrdinal_le.mp h
  have h2 := dateLe_iff_toOrdinal_le.mp (dateLe_dateMax e)
  omega

theorem generate_cons {s e : PyDate} (hle : dateLe s e) (hs : s ≠ dateMax) :
    ∃ s2, addDay s = some s2 ∧ toOrdinal s2 = toOrdinal s + 1 ∧
      generate_daily_ranges s e =
        (match generate_daily_ranges s2 e with
         | .ok rest => .ok ((s, s) :: rest)
         | .error u => .error u) := by
  have hnone : addDay s ≠ none := fun h => hs (addDay_eq_none_iff.mp h)
  obtain ⟨s2, hs2⟩ : ∃ s2, addDay s = some s2 := by
    cases h : addDay s with
    | none => exact absurd h hnone
    | some v => exact ⟨v, rfl⟩
  have hord := toOrdinal_addDay hs2
  have hkey := dateLe_iff_toOrdinal_le.mp hle
  refine ⟨s2, hs2, hord, ?_⟩
  unfold generate_daily_ranges
  have hfuel : toOrdinal e + 2 - toOrdinal s = (toOrdinal e + 2 - toOrdinal s2) + 1 := by
    omega
  rw [hfuel]
  show genAux _ s e = _
  simp only [genAux, if_pos hle, hs2]

theorem generate_nil {s e : PyDate} (h : ¬ dateLe s e) :
    generate_daily_ranges s e = .ok [] := by
  unfold generate_daily_ranges
  cases hn : toOrdinal e + 2 - toOrdinal s with
  | zero => rfl
  | succ k => simp [genAux, h]

theorem generate_max : ∀ (n : Nat) (s : PyDate), toOrdinal dateMax - toOrdinal s = n →
    dateLe s dateMax → generate_daily_ranges s dateMax = .error () := by
  intro n
  induction n with
  | zero =>
    intro s h0 hle
    have hse : s = dateMax := by
      apply toOrdinal_inj
      have := dateLe_iff_toOrdinal_le.mp hle
      omega
    subst hse
    unfold generate_daily_ranges
    have h2 : toOrdinal dateMax + 2 - toOrdinal dateMax = 2 := by omega
    rw [h2]
    have hnone : addDay dateMax = none := addDay_eq_none_iff.mpr rfl
    simp [genAux, dateLe_refl dateMax, hnone]
  | succ k ih =>
    intro s hk hle
    have hs : s ≠ dateMax := by
      intro h
      subst h
      omega
    obtain ⟨s2, ha, hord, heq⟩ := generate_cons hle hs
    rw [heq, ih s2 (by omega) (dateLe_dateMax s2)]

theorem generate_spec : ∀ (n : Nat) (s e : PyDate), toOrdinal e - toOrdinal s = n →
    dateLe s e → e ≠ dateMax →
    ∃ ds, generate_daily_ranges s e = .ok ds ∧
      ds.length = n + 1 ∧
      (∀ p ∈ ds, p.1 = p.2 ∧ dateLe s p.1 ∧ dateLe p.1 e) ∧
      List.Chain' (fun p q => dateLt p.1 q.1) ds ∧
      (∀ d : PyDate, dateLe s d → dateLe d e → (d, d) ∈ ds) := by
  intro n
  induction n with
  | zero =>
    intro s e h0 hle hne
    have hse : s = e := by
      apply toOrdinal_inj
      have := dateLe_iff_toOrdinal_le.mp hle
      omega
    subst hse
    obtain ⟨s2, ha, hord, heq⟩ := generate_cons (dateLe_refl s) hne
    have hnotle : ¬ dateLe s2 s := fun hc => by
      have := dateLe_iff_toOrdinal_le.mp hc
      omega
    rw [heq, generate_nil hnotle]
    refine ⟨[(s, s)], rfl, rfl, ?_, ?_, ?_⟩
    · intro p hp
      simp only [List.mem_singleton] at hp
      subst hp
      exact ⟨rfl, dateLe_refl s, dateLe_refl s⟩
    · simp
    · intro d h1 h2
      have hd : d = s := by
        apply toOrdinal_inj
        have := dateLe_iff_toOrdinal_le.mp h1
        have := dateLe_iff_toOrdinal_le.mp h2
        omega
      subst hd
      simp
  | succ k ih =>
    intro s e hk hle hne
    have hs : s ≠ dateMax := by
      intro h
      subst h
      have := dateLe_iff_toOrdinal_le.mp (dateLe_dateMax e)
      omega
    obtain ⟨s2, ha, hord, heq⟩ := generate_cons hle hs
    have hle2 : dateLe s2 e := dateLe_iff_toOrdinal_le.mpr (by omega)
    obtain ⟨ds2, hg2, hlen, helem, hchain, hcov⟩ := ih s2 e (by omega) hle2 hne
    rw [heq, hg2]
    have hss2 : dateLt s s2 := dateLt_iff_toOrdinal_lt.mpr (by omega)
    refine ⟨(s, s) :: ds2, rfl, by simp [hlen], ?_, ?_, ?_⟩
    · intro p hp
      rcases List.mem_cons.mp hp with h | h
      · subst h
        exact ⟨rfl, dateLe_refl s, hle⟩
      · obtain ⟨e1, e2, e3⟩ := helem p h
        exact ⟨e1, dateLe_trans (dateLe_of_dateLt hss2) e2, e3⟩
    · rw [List.chain'_cons']
      refine ⟨?_, hchain⟩
      intro b hb
      have hbmem : b ∈ ds2 := List.mem_of_mem_head? hb
      obtain ⟨_, hb2, _⟩ := helem b hbmem
      have hb3 := dateLe_iff_toOrdinal_le.mp hb2
      exact dateLt_iff_toOrdinal_lt.mpr (show toOrdinal s < toOrdinal b.1 by omega)
    · intro d h1 h2
      by_cases hd : d = s
      · subst hd
        exact List.mem_cons_self _ _
      · have hlt : dateLt s d := by
          rcases dateLt_or_eq_of_dateLe h1 with h | h
          · exact h
          · exact absurd h.symm hd
        have hlt2 := dateLt_iff_toOrdinal_lt.mp hlt
        have hd2 : dateLe s2 d := dateLe_iff_toOrdinal_le.mpr (by omega)
        exact List.mem_cons_of_mem _ (hcov d hd2 h2)

theorem extractStep_spec (st : Option PyDate × Option PyDate) (q : Stmt)
    (h1 : ∀ lit, findDateLit startMarker q = some lit → (pyStrptime lit).isSome = true)
    (h2 : ∀ lit, findDateLit endMarker q = some lit → (pyStrptime lit).isSome = true) :
    extractStep st q = .ok
      ((match findDateLit startMarker q with
        | some lit => pyStrptime lit
        | none => st.1),
       (match findDateLit endMarker q with
        | some lit => pyStrptime lit
        | none => st.2)) := by
  unfold extractStep
  cases hs : findDateLit startMarker q with
  | none =>
    cases he : findDateLit endMarker q with
    | none =>
      simp
      all_goals rfl
    | some lit =>
      obtain ⟨dt, hdt⟩ := Option.isSome_iff_exists.mp (h2 lit he)
      simp [hdt]
      all_goals rfl
  | some lit =>
    obtain ⟨dt, hdt⟩ := Option.isSome_iff_exists.mp (h1 lit hs)
    cases he : findDateLit endMarker q with
    | none =>
      simp [hdt]
      all_goals rfl
    | some lit2 =>
      obtain ⟨dt2, hdt2⟩ := Option.isSome_iff_exists.mp (h2 lit2 he)
      simp [hdt, hdt2]
      all_goals rfl

theorem extract_fold_spec : ∀ (qs : List Stmt) (st : Option PyDate × Option PyDate),
    (∀ q ∈ qs, (∀ lit, findDateLit startMarker q = some lit → (pyStrptime lit).isSome = true) ∧
               (∀ lit, findDateLit endMarker q = some lit → (pyStrptime lit).isSome = true)) →
    List.foldlM extractStep st qs = .ok
      ((match lastDateLit startMarker qs with
        | some lit => pyStrptime lit
        | none => st.1),
       (match lastDateLit endMarker qs with
        | some lit => pyStrptime lit
        | none => st.2)) := by
  intro qs
  induction qs with
  | nil =>
    intro st h
    rfl
  | cons q qs ih =>
    intro st h
    have hq := h q (List.mem_cons_self q qs)
    have hqs : ∀ q' ∈ qs,
        (∀ lit, findDateLit startMarker q' = some lit → (pyStrptime lit).isSome = true) ∧
        (∀ lit, findDateLit endMarker q' = some lit → (pyStrptime lit).isSome = true) :=
      fun q' hq' => h q' (List.mem_cons_of_mem _ hq')
    rw [List.foldlM_cons, extractStep_spec st q hq.1 hq.2]
    show List.foldlM extractStep _ qs = _
    rw [ih _ hqs]
    show Except.ok _ = Except.ok _
    rw [show lastDateLit startMarker (q :: qs) =
        (match lastDateLit startMarker qs with
         | some lit => some lit
         | none => findDateLit startMarker q) from rfl]
    rw [show lastDateLit endMarker (q :: qs) =
        (match lastDateLit endMarker qs with
         | some lit => some lit
         | none => findDateLit endMarker q) from rfl]
    cases lastDateLit startMarker qs <;> cases lastDateLit endMarker qs <;>
      cases findDateLit startMarker q <;> cases findDateLit endMarker q <;> simp

theorem lastDateLit_none {m : List Char} : ∀ {qs : List Stmt},
    (∀ q ∈ qs, findDateLit m q = none) → lastDateLit m qs = none := by
  intro qs
  induction qs with
  | nil => intro h; rfl
  | cons q qs ih =>
    intro h
    unfold lastDateLit
    rw [ih (fun q' hq' => h q' (List.mem_cons_of_mem _ hq')),
      h q (List.mem_cons_self q qs)]

theorem matchLitCI_append : ∀ {p w : List Char}, matchLitCI p w = some (w, []) →
    ∀ r, matchLitCI p (w ++ r) = some (w, r) := by
  intro p
  induction p with
  | nil =>
    intro w h r
    cases w with
    | nil => rfl
    | cons c cs => simp [matchLitCI] at h
  | cons pc ps ih =>
    intro w h r
    cases w with
    | nil => simp [matchLitCI] at h
    | cons c cs =>
      rw [List.cons_append]
      simp only [matchLitCI] at h ⊢
      by_cases hc : ciEq c pc = true
      · rw [if_pos hc] at h ⊢
        cases hm : matchLitCI ps cs with
        | none => rw [hm] at h; simp at h
        | some pr =>
          rw [hm] at h
          obtain ⟨a, r2⟩ := pr
          simp at h
          obtain ⟨ha, hr⟩ := h
          subst ha
          subst hr
          rw [ih hm r]
      · rw [if_neg hc] at h
        simp at h

theorem matchLitCI_cons_ex {pc : Char} {ps w : List Char}
    (h : matchLitCI (pc :: ps) w = some (w, [])) :
    ∃ c w2, w = c :: w2 ∧ ciEq c pc = true := by
  cases w with
  | nil => simp [matchLitCI] at h
  | cons c cs =>
    refine ⟨c, cs, rfl, ?_⟩
    unfold matchLitCI at h
    by_cases hc : ciEq c pc = true
    · exact hc
    · rw [if_neg hc] at h; simp at h

theorem toNat_of_ciEq_at {c : Char} (h : ciEq c '@' = true) : c.toNat = 64 := by
  unfold ciEq lowN at h
  simp only [beq_iff_eq] at h
  have h64 : ('@').toNat = 64 := rfl
  rw [h64] at h
  rw [if_neg (by decide : ¬(65 ≤ 64 ∧ 64 ≤ 90))] at h
  split at h <;> omega

theorem not_ws_of_ciEq_at {c : Char} (h : ciEq c '@' = true) : isWsCh c = false := by
  have h64 := toNat_of_ciEq_at h
  unfold isWsCh
  rw [h64]
  decide

theorem quote_toNat {c : Char} (h : isQuoteCh c = true) :
    c.toNat = 34 ∨ c.toNat = 39 := by
  unfold isQuoteCh at h
  simp only [Bool.or_eq_true, beq_iff_eq] at h
  exact h

theorem not_ws_of_quote {c : Char} (h : isQuoteCh c = true) : isWsCh c = false := by
  rcases quote_toNat h with h2 | h2 <;> (unfold isWsCh; rw [h2]; decide)

theorem not_digitdash_of_quote {c : Char} (h : isQuoteCh c = true) :
    isDigitDashCh c = false := by
  rcases quote_toNat h with h2 | h2 <;>
    (unfold isDigitDashCh isDigitCh; rw [h2]; decide)

theorem takeWhile_split {f : Char → Bool} : ∀ (w r : List Char),
    (∀ c ∈ w, f c = true) → (∀ c, r.head? = some c → f c = false) →
    (w ++ r).takeWhile f = w ∧ (w ++ r).dropWhile f = r := by
  intro w
  induction w with
  | nil =>
    intro r h1 h2
    cases r with
    | nil => simp
    | cons c r2 =>
      have hc := h2 c rfl
      simp [List.takeWhile, List.dropWhile, hc]
  | cons a w ih =>
    intro r h1 h2
    have ha := h1 a (List.mem_cons_self a w)
    obtain ⟨ht, hd⟩ := ih r (fun c hc => h1 c (List.mem_cons_of_mem _ hc)) h2
    simp [List.takeWhile, List.dropWhile, ha, ht, hd]

theorem munch_split {f : Char → Bool} {w r : List Char}
    (h1 : ∀ c ∈ w, f c = true) (h2 : ∀ c, r.head? = some c → f c = false) :
    munch f (w ++ r) = (w, r) := by
  unfold munch
  obtain ⟨ht, hd⟩ := takeWhile_split w r h1 h2
  rw [ht, hd]

theorem isEmpty_false_of_ne_nil {l : List Char} (h : l ≠ []) : l.isEmpty = false := by
  cases l with
  | nil => exact absurd rfl h
  | cons c cs => rfl

theorem matchHeadAt_canonical {marker sw ws1 mw ws2 ws3 rest : List Char}
    (hsw : matchLitCI setLit sw = some (sw, []))
    (hws1ne : ws1 ≠ []) (hws1 : ∀ c ∈ ws1, isWsCh c = true)
    (hmw : matchLitCI marker mw = some (mw, []))
    (hmk : ∃ mk2, marker = '@' :: mk2)
    (hws2 : ∀ c ∈ ws2, isWsCh c = true)
    (hws3 : ∀ c ∈ ws3, isWsCh c = true)
    (hrest : ∀ c, rest.head? = some c → isWsCh c = false) :
    matchHeadAt marker (sw ++ ws1 ++ mw ++ ws2 ++ '=' :: ws3 ++ rest) =
      some (sw ++ ws1 ++ mw ++ ws2 ++ '=' :: ws3, rest) := by
  obtain ⟨mk2, hmkeq⟩ := hmk
  obtain ⟨cm, mw2, hmw0, hmwci⟩ := matchLitCI_cons_ex (hmkeq ▸ hmw)
  have e1 : matchLitCI setLit (sw ++ (ws1 ++ (mw ++ (ws2 ++ ('=' :: (ws3 ++ rest)))))) =
      some (sw, ws1 ++ (mw ++ (ws2 ++ ('=' :: (ws3 ++ rest))))) := matchLitCI_append hsw _
  have e2 : munch isWsCh (ws1 ++ (mw ++ (ws2 ++ ('=' :: (ws3 ++ rest))))) =
      (ws1, mw ++ (ws2 ++ ('=' :: (ws3 ++ rest)))) := by
    apply munch_split hws1
    intro c hc
    rw [hmw0] at hc
    simp only [List.cons_append, List.head?_cons] at hc
    cases hc
    exact not_ws_of_ciEq_at hmwci
  have e3 : matchLitCI marker (mw ++ (ws2 ++ ('=' :: (ws3 ++ rest)))) =
      some (mw, ws2 ++ ('=' :: (ws3 ++ rest))) := matchLitCI_append hmw _
  have e4 : munch isWsCh (ws2 ++ ('=' :: (ws3 ++ rest))) = (ws2, '=' :: (ws3 ++ rest)) := by
    apply munch_split hws2
    intro c hc
    simp only [List.head?_cons] at hc
    cases hc
    decide
  have e5 : munch isWsCh (ws3 ++ rest) = (ws3, rest) := munch_split hws3 hrest
  simp only [List.append_assoc, List.cons_append]
  unfold matchHeadAt
  rw [e1]
  simp only [e2, e3, e4, e5, isEmpty_false_of_ne_nil hws1ne, if_pos rfl]
  simp [List.append_assoc]

theorem matchP2At_canonical {marker sw ws1 mw ws2 ws3 lit post : List Char} {q1 q2 : Char}
    (hsw : matchLitCI setLit sw = some (sw, []))
    (hws1ne : ws1 ≠ []) (hws1 : ∀ c ∈ ws1, isWsCh c = true)
    (hmw : matchLitCI marker mw = some (mw, []))
    (hmk : ∃ mk2, marker = '@' :: mk2)
    (hws2 : ∀ c ∈ ws2, isWsCh c = true)
    (hws3 : ∀ c ∈ ws3, isWsCh c = true)
    (hq1 : isQuoteCh q1 = true) (hq2 : isQuoteCh q2 = true)
    (hlitne : lit ≠ []) (hlit : ∀ c ∈ lit, isDigitDashCh c = true) :
    matchP2At marker (sw ++ ws1 ++ mw ++ ws2 ++ '=' :: ws3 ++ q1 :: (lit ++ q2 :: post)) =
      some (sw ++ ws1 ++ mw ++ ws2 ++ '=' :: ws3, post) := by
  have ehead := @matchHeadAt_canonical marker sw ws1 mw ws2 ws3 (q1 :: (lit ++ q2 :: post))
    hsw hws1ne hws1 hmw hmk hws2 hws3
    (by
      intro c hc
      simp only [List.head?_cons] at hc
      cases hc
      exact not_ws_of_quote hq1)
  have erun : munch isDigitDashCh (lit ++ q2 :: post) = (lit, q2 :: post) := by
    apply munch_split hlit
    intro c hc
    simp only [List.head?_cons] at hc
    cases hc
    exact not_digitdash_of_quote hq2
  unfold matchP2At
  rw [ehead]
  simp only [erun, hq1, hq2, isEmpty_false_of_ne_nil hlitne, if_pos rfl]
  simp

theorem subAux_id {marker day : List Char} : ∀ (f : Nat) (cs : List Char),
    hasP2 marker cs = false → subAux marker day f cs = cs := by
  intro f
  induction f with
  | zero => intro cs h; rfl
  | succ k ih =>
    intro cs h
    cases cs with
    | nil => rfl
    | cons c rest =>
      have h2 : (matchP2At marker (c :: rest)).isSome = false ∧ hasP2 marker rest = false := by
        simpa [hasP2] using h
      simp only [subAux]
      cases hm : matchP2At marker (c :: rest) with
      | some p => rw [hm] at h2; simp at h2
      | none => rw [ih rest h2.2]

theorem subAux_cons_match {marker day : List Char} {n : Nat} {c : Char} {rest ha ra : List Char}
    (hm : matchP2At marker (c :: rest) = some (ha, ra)) :
    subAux marker day (n + 1) (c :: rest) =
      ha ++ dquoteCh :: (day ++ dquoteCh :: subAux marker day n ra) := by
  simp only [subAux]
  rw [hm]

theorem pySub_canonical {marker sw ws1 mw ws2 ws3 lit post day : List Char} {q1 q2 : Char}
    (hsw : matchLitCI setLit sw = some (sw, []))
    (hws1ne : ws1 ≠ []) (hws1 : ∀ c ∈ ws1, isWsCh c = true)
    (hmw : matchLitCI marker mw = some (mw, []))
    (hmk : ∃ mk2, marker = '@' :: mk2)
    (hws2 : ∀ c ∈ ws2, isWsCh c = true)
    (hws3 : ∀ c ∈ ws3, isWsCh c = true)
    (hq1 : isQuoteCh q1 = true) (hq2 : isQuoteCh q2 = true)
    (hlitne : lit ≠ []) (hlit : ∀ c ∈ lit, isDigitDashCh c = true)
    (hpost : hasP2 marker post = false) :
    pySubMarker marker day (sw ++ ws1 ++ mw ++ ws2 ++ '=' :: ws3 ++ q1 :: (lit ++ q2 :: post)) =
      sw ++ ws1 ++ mw ++ ws2 ++ '=' :: ws3 ++ dquoteCh :: (day ++ dquoteCh :: post) := by
  have hm := @matchP2At_canonical marker sw ws1 mw ws2 ws3 lit post q1 q2
    hsw hws1ne hws1 hmw hmk hws2 hws3 hq1 hq2 hlitne hlit
  have hsetShape : setLit = 's' :: "et".data := rfl
  obtain ⟨c0, sw2, hsw0, hci⟩ := matchLitCI_cons_ex (hsetShape ▸ hsw)
  subst hsw0
  simp only [List.cons_append, List.append_assoc] at hm ⊢
  unfold pySubMarker
  rw [List.length_cons]
  rw [subAux_cons_match hm]
  rw [subAux_id _ post hpost]
  simp [List.append_assoc, List.cons_append]

theorem stepStmt_trace (db : DB) (d1 d2 : PyDate) (st : RunSt) (q : Stmt) :
    (stepStmt db d1 d2 st q).1.trace = st.trace ++ [scheduleStmt d1 d2 q] := by
  unfold stepStmt scheduleStmt
  by_cases h : isSetStmt q = true
  · rw [if_pos h, if_pos h]
    rcases hx : db.exec (rewriteForDay d1 d2 q) st.sess with ⟨s2, r⟩
    cases r <;> simp [hx]
  · rw [if_neg h, if_neg h]
    rcases hx : db.exec q st.sess with ⟨s2, r⟩
    rcases r with e | o
    · simp [hx]
    · rcases o with _ | ⟨cns, rows⟩ <;> simp [hx]

theorem runStmts_trace (db : DB) (d1 d2 : PyDate) : ∀ (qs : List Stmt) (st : RunSt),
    ∃ tr, (runStmts db d1 d2 st qs).1.trace = st.trace ++ tr ∧
      tr <+: qs.map (scheduleStmt d1 d2) ∧
      ((runStmts db d1 d2 st qs).2 = none → tr = qs.map (scheduleStmt d1 d2)) := by
  intro qs
  induction qs with
  | nil =>
    intro st
    exact ⟨[], by simp [runStmts], by simp, fun _ => rfl⟩
  | cons q qs ih =>
    intro st
    rcases hstep : stepStmt db d1 d2 st q with ⟨st2, err⟩
    have htr2 : st2.trace = st.trace ++ [scheduleStmt d1 d2 q] := by
      have h := stepStmt_trace db d1 d2 st q
      rw [hstep] at h
      exact h
    cases err with
    | some e =>
      refine ⟨[scheduleStmt d1 d2 q], ?_, ?_, ?_⟩
      · simp [runStmts, hstep, htr2]
      · exact ⟨qs.map (scheduleStmt d1 d2), by simp⟩
      · intro hnone
        simp [runStmts, hstep] at hnone
    | none =>
      obtain ⟨tr, h1, h2, h3⟩ := ih st2
      refine ⟨scheduleStmt d1 d2 q :: tr, ?_, ?_, ?_⟩
      · simp [runStmts, hstep, h1, htr2]
      · obtain ⟨suf, hsuf⟩ := h2
        exact ⟨suf, by simp [hsuf]⟩
      · intro hnone
        simp only [runStmts, hstep] at hnone
        rw [h3 hnone]
        simp

theorem runDays_trace (db : DB) (queries : List Stmt) :
    ∀ (ds : List (PyDate × PyDate)) (st : RunSt),
    ∃ tr, (runDays db queries st ds).1.trace = st.trace ++ tr ∧
      tr <+: chunkSchedule queries ds := by
  intro ds
  induction ds with
  | nil =>
    intro st
    exact ⟨[], by simp [runDays], by simp [chunkSchedule]⟩
  | cons p ds ih =>
    intro st
    obtain ⟨d1, d2⟩ := p
    rcases hrun : runStmts db d1 d2 st queries with ⟨st2, err⟩
    obtain ⟨tr1, h1, h2, h3⟩ := runStmts_trace db d1 d2 queries st
    rw [hrun] at h1 h3
    have h1x : st2.trace = st.trace ++ tr1 := h1
    have hsched : chunkSchedule queries ((d1, d2) :: ds) =
        queries.map (scheduleStmt d1 d2) ++ chunkSchedule queries ds := by
      simp [chunkSchedule]
    cases err with
    | some e =>
      refine ⟨tr1, ?_, ?_⟩
      · simp [runDays, hrun, h1x]
      · obtain ⟨suf, hsuf⟩ := h2
        exact ⟨suf ++ chunkSchedule queries ds, by
          rw [hsched, ← hsuf]
          simp⟩
    | none =>
      have htr1 : tr1 = queries.map (scheduleStmt d1 d2) := h3 rfl
      obtain ⟨tr2, g1, g2⟩ := ih st2
      refine ⟨tr1 ++ tr2, ?_, ?_⟩
      · simp only [runDays, hrun]
        rw [g1, h1x, List.append_assoc]
      · obtain ⟨suf, hsuf⟩ := g2
        refine ⟨suf, ?_⟩
        rw [hsched, htr1, ← hsuf]
        simp

theorem runStmts_allSet (db : DB) (d1 d2 : PyDate) : ∀ (qs : List Stmt),
    (∀ q ∈ qs, isSetStmt q = true) → ∀ st : RunSt,
    (runStmts db d1 d2 st qs).1.cols = st.cols ∧
    (runStmts db d1 d2 st qs).1.acc = st.acc ∧
    (runStmts db d1 d2 st qs).1.sess = (sessFoldChunk db d1 d2 st.sess qs).1 ∧
    (runStmts db d1 d2 st qs).2 = (sessFoldChunk db d1 d2 st.sess qs).2 := by
  intro qs
  induction qs with
  | nil =>
    intro h st
    exact ⟨rfl, rfl, rfl, rfl⟩
  | cons q qs ih =>
    intro h st
    have hq : isSetStmt q = true := h q (List.mem_cons_self q qs)
    have hqs : ∀ q' ∈ qs, isSetStmt q' = true :=
      fun q' hq' => h q' (List.mem_cons_of_mem _ hq')
    rcases hx : db.exec (rewriteForDay d1 d2 q) st.sess with ⟨s2, r⟩
    have hstep : stepStmt db d1 d2 st q =
        (({ st with sess := s2, trace := st.trace ++ [rewriteForDay d1 d2 q] } : RunSt),
          match r with | .error e => some e | .ok _ => none) := by
      unfold stepStmt
      rw [if_pos hq]
      simp only [hx]
      cases r <;> rfl
    have hfold : sessFoldChunk db d1 d2 st.sess (q :: qs) =
        (match r with
         | .error e => (s2, some e)
         | .ok _ => sessFoldChunk db d1 d2 s2 qs) := by
      cases r <;> simp [sessFoldChunk, hx]
    cases r with
    | error e =>
      simp [runStmts, hstep, hfold]
    | ok o =>
      simp only [runStmts, hstep, hfold]
      exact ih hqs _

theorem runStmts_append (db : DB) (d1 d2 : PyDate) : ∀ (as2 bs : List Stmt) (st : RunSt),
    runStmts db d1 d2 st (as2 ++ bs) =
      (match runStmts db d1 d2 st as2 with
       | (st2, some e) => (st2, some e)
       | (st2, none) => runStmts db d1 d2 st2 bs) := by
  intro as2
  induction as2 with
  | nil =>
    intro bs st
    rfl
  | cons q qs ih =>
    intro bs st
    rw [List.cons_append]
    rcases hstep : stepStmt db d1 d2 st q with ⟨st2, err⟩
    cases err with
    | some e => simp [runStmts, hstep]
    | none =>
      simp only [runStmts, hstep]
      exact ih bs st2

theorem runStmts_day (db : DB) (pre : List Stmt) (dataQ : Stmt) (d1 d2 : PyDate)
    (hpre : ∀ q ∈ pre, isSetStmt q = true) (hdq : isSetStmt dataQ = false)
    (cols : List String) (rowsF : Session → List (List String))
    (hdata : ∀ sess, db.exec dataQ sess = (sess, .ok (some (cols, rowsF sess))))
    (sd : Session)
    (hsets : ∀ sess, sessFoldChunk db d1 d2 sess pre = (sd, none)) (st : RunSt) :
    (runStmts db d1 d2 st (pre ++ [dataQ])).2 = none ∧
    (runStmts db d1 d2 st (pre ++ [dataQ])).1.sess = sd ∧
    (runStmts db d1 d2 st (pre ++ [dataQ])).1.cols =
      (match st.cols with | none => some cols | some c => some c) ∧
    (runStmts db d1 d2 st (pre ++ [dataQ])).1.acc = st.acc ++ rowsF sd := by
  rcases hP : runStmts db d1 d2 st pre with ⟨stP, errP⟩
  obtain ⟨hc, ha, hs, he⟩ := runStmts_allSet db d1 d2 pre hpre st
  rw [hP] at hc ha hs he
  rw [hsets st.sess] at hs he
  have hcP : stP.cols = st.cols := hc
  have haP : stP.acc = st.acc := ha
  have hsP : stP.sess = sd := hs
  have heP : errP = none := he
  subst heP
  have hstep : stepStmt db d1 d2 stP dataQ =
      (({ sess := stP.sess,
          cols := (match stP.cols with | none => some cols | some c => some c),
          acc := stP.acc ++ rowsF stP.sess,
          trace := stP.trace ++ [dataQ] } : RunSt), none) := by
    unfold stepStmt
    rw [if_neg (by rw [hdq]; exact fun h => Bool.noConfusion h)]
    simp only [hdata stP.sess]
  have hrun : runStmts db d1 d2 st (pre ++ [dataQ]) =
      (({ sess := stP.sess,
          cols := (match stP.cols with | none => some cols | some c => some c),
          acc := stP.acc ++ rowsF stP.sess,
          trace := stP.trace ++ [dataQ] } : RunSt), none) := by
    rw [runStmts_append db d1 d2 pre [dataQ] st, hP]
    simp only [runStmts, hstep]
  rw [hrun]
  refine ⟨rfl, ?_, ?_, ?_⟩
  · exact hsP
  · rw [hcP]
  · rw [haP, hsP]

theorem runDays_accum (db : DB) (pre : List Stmt) (dataQ : Stmt)
    (hpre : ∀ q ∈ pre, isSetStmt q = true) (hdq : isSetStmt dataQ = false)
    (cols : List String) (rowsF : Session → List (List String))
    (hdata : ∀ sess, db.exec dataQ sess = (sess, .ok (some (cols, rowsF sess)))) :
    ∀ (ds : List (PyDate × PyDate)),
    (∀ p ∈ ds, ∀ sess, sessFoldChunk db p.1 p.2 sess pre =
      (⟨some (strftimeYMD p.1), some (strftimeYMD p.2)⟩, none)) →
    ∀ st : RunSt,
      (runDays db (pre ++ [dataQ]) st ds).2 = none ∧
      (runDays db (pre ++ [dataQ]) st ds).1.acc =
        st.acc ++ ds.flatMap
          (fun p => rowsF ⟨some (strftimeYMD p.1), some (strftimeYMD p.2)⟩) ∧
      (runDays db (pre ++ [dataQ]) st ds).1.cols =
        (match ds with
         | [] => st.cols
         | _ :: _ => (match st.cols with | none => some cols | some c => some c)) := by
  intro ds
  induction ds with
  | nil =>
    intro hdays st
    exact ⟨rfl, by simp [runDays], rfl⟩
  | cons p ds ih =>
    intro hdays st
    obtain ⟨d1, d2⟩ := p
    have hd := hdays (d1, d2) (List.mem_cons_self _ _)
    obtain ⟨r1, r2, r3, r4⟩ :=
      runStmts_day db pre dataQ d1 d2 hpre hdq cols rowsF hdata _ hd st
    rcases hP : runStmts db d1 d2 st (pre ++ [dataQ]) with ⟨st2, err⟩
    rw [hP] at r1 r2 r3 r4
    have herr : err = none := r1
    subst herr
    obtain ⟨g1, g2, g3⟩ := ih
      (fun p2 hp2 => hdays p2 (List.mem_cons_of_mem _ hp2)) st2
    have hstep : runDays db (pre ++ [dataQ]) st ((d1, d2) :: ds) =
        runDays db (pre ++ [dataQ]) st2 ds := by
      simp [runDays, hP]
    rw [hstep]
    refine ⟨g1, ?_, ?_⟩
    · rw [g2, r4]
      simp
    · rw [g3]
      cases ds with
      | nil =>
        rw [r3]
      | cons p3 ds3 =>
        rw [r3]
        cases hst : st.cols <;> simp

theorem execute_query_to_csv_sess (db : DB) (q : Stmt) (sess : Session) :
    (execute_query_to_csv db q sess).1 = (db.exec q sess).1 := by
  unfold execute_query_to_csv
  rcases hx : db.exec q sess with ⟨s2, r⟩
  rcases r with e | o
  · simp
  · rcases o with _ | ⟨cns, rows⟩ <;> simp

theorem runSingle_sess (db : DB) : ∀ (qs : List Stmt) (sess : Session),
    (runSingle db sess qs).1 = sessFoldPlain db sess qs := by
  intro qs
  induction qs with
  | nil => intro sess; rfl
  | cons q qs ih =>
    intro sess
    rcases hq : execute_query_to_csv db q sess with ⟨s2, ok2, f⟩
    have hs2 : s2 = (db.exec q sess).1 := by
      have h := execute_query_to_csv_sess db q sess
      rw [hq] at h
      exact h
    rcases hrest : runSingle db s2 qs with ⟨s3, fs, n⟩
    have h3 : s3 = sessFoldPlain db s2 qs := by
      have h := ih s2
      rw [hrest] at h
      exact h
    simp only [runSingle, hq, hrest, sessFoldPlain]
    rw [h3, hs2]

theorem runSingle_snoc (db : DB) : ∀ (qs : List Stmt) (q : Stmt) (sess : Session),
    (runSingle db sess (qs ++ [q])).2.1 =
      (runSingle db sess qs).2.1 ++
        [(execute_query_to_csv db q (sessFoldPlain db sess qs)).2.2] := by
  intro qs
  induction qs with
  | nil =>
    intro q sess
    rcases hq : execute_query_to_csv db q sess with ⟨s2, ok2, f⟩
    simp [runSingle, hq, sessFoldPlain]
  | cons q0 qs ih =>
    intro q sess
    rw [List.cons_append]
    rcases hq0 : execute_query_to_csv db q0 sess with ⟨s2, ok2, f⟩
    have hs2 : s2 = (db.exec q0 sess).1 := by
      have h := execute_query_to_csv_sess db q0 sess
      rw [hq0] at h
      exact h
    rcases ha : runSingle db s2 (qs ++ [q]) with ⟨sA, fsA, nA⟩
    rcases hb : runSingle db s2 qs with ⟨sB, fsB, nB⟩
    have hih := ih q s2
    rw [ha, hb] at hih
    simp only [runSingle, hq0, ha, hb]
    simp only at hih
    rw [hih]
    have : sessFoldPlain db sess (q0 :: qs) = sessFoldPlain db s2 qs := by
      simp only [sessFoldPlain]
      rw [hs2]
    rw [this]
    simp

/-- C3 (amended): for every pair of dates with start ≤ end and end strictly
before 9999-12-31, `generate_daily_ranges` returns exactly
(end − start in days) + 1 pairs, strictly ascending by day, each equal to
(day, day), covering every calendar day in [start, end] with no gaps or
duplicates; for start > end it returns the empty sequence without raising;
but when start ≤ end = 9999-12-31 the loop's final
`current_date += timedelta(days=1)` overflows `datetime.max` and the
function raises `OverflowError` instead of returning the sequence. -/
theorem queryRunner_C3 (s e : PyDate) :
    (dateLe s e → e ≠ dateMax →
      ∃ ds, generate_daily_ranges s e = .ok ds ∧
        ds.length = daysBetween s e + 1 ∧
        (∀ p ∈ ds, p.1 = p.2 ∧ dateLe s p.1 ∧ dateLe p.1 e) ∧
        List.Chain' (fun p p2 => dateLt p.1 p2.1) ds ∧
        (∀ d : PyDate, dateLe s d → dateLe d e → (d, d) ∈ ds)) ∧
    (¬ dateLe s e → generate_daily_ranges s e = .ok []) ∧
    (dateLe s e → e = dateMax → generate_daily_ranges s e = .error ()) := by
  refine ⟨?_, ?_, ?_⟩
  · intro hle hne
    exact generate_spec (daysBetween s e) s e rfl hle hne
  · exact generate_nil
  · intro hle he
    subst he
    exact generate_max (toOrdinal dateMax - toOrdinal s) s rfl hle

/-- Witness for C3 at the concrete range 2024-01-01 .. 2024-01-02 and its
reversal. -/
theorem queryRunner_C3_witness :
    (∃ ds, generate_daily_ranges dayA dayB = .ok ds ∧
      ds.length = daysBetween dayA dayB + 1 ∧
      (∀ p ∈ ds, p.1 = p.2 ∧ dateLe dayA p.1 ∧ dateLe p.1 dayB) ∧
      List.Chain' (fun p p2 => dateLt p.1 p2.1) ds ∧
      (∀ d : PyDate, dateLe dayA d → dateLe d dayB → (d, d) ∈ ds)) ∧
    generate_daily_ranges dayB dayA = .ok [] :=
  ⟨(queryRunner_C3 dayA dayB).1 (by decide) (by decide),
   (queryRunner_C3 dayB dayA).2.1 (by decide)⟩

/-- Counterexample to C3 as frozen: at start = 9999-12-30 ≤ end = 9999-12-31
the source's loop appends both days and then raises `OverflowError` from
`datetime` addition, so `generate_daily_ranges` does not return the
two-element sequence the claim promises for every start ≤ end. -/
theorem queryRunner_C3_counterexample :
    dateLe ⟨9999, 12, 30, by decide⟩ dateMax ∧
    generate_daily_ranges ⟨9999, 12, 30, by decide⟩ dateMax = .error () := by
  decide

/-- C4: the extractor scans case-insensitively for marker assignments to a
quoted ISO date, keeps the last statement-order match of each marker (later
statements override earlier ones) parsed as a calendar date, and returns
(none, none) when neither pattern matches any statement — provided every
matched date text parses (the parse failure case is claim C5's subject). -/
theorem queryRunner_C4 (qs : List Stmt)
    (hp : ∀ q ∈ qs,
      (findDateLit startMarker q).all (fun lit => (pyStrptime lit).isSome) = true ∧
      (findDateLit endMarker q).all (fun lit => (pyStrptime lit).isSome) = true) :
    extract_date_range qs = .ok
      ((match lastDateLit startMarker qs with
        | some lit => pyStrptime lit
        | none => none),
       (match lastDateLit endMarker qs with
        | some lit => pyStrptime lit
        | none => none)) ∧
    ((∀ q ∈ qs, findDateLit startMarker q = none ∧ findDateLit endMarker q = none) →
      extract_date_range qs = .ok (none, none)) := by
  have hp2 : ∀ q ∈ qs,
      (∀ lit, findDateLit startMarker q = some lit → (pyStrptime lit).isSome = true) ∧
      (∀ lit, findDateLit endMarker q = some lit → (pyStrptime lit).isSome = true) := by
    intro q hq
    obtain ⟨ha, hb⟩ := hp q hq
    constructor
    · intro lit hl
      rw [hl] at ha
      simpa using ha
    · intro lit hl
      rw [hl] at hb
      simpa using hb
  have h1 := extract_fold_spec qs (none, none) hp2
  constructor
  · exact h1
  · intro hnone
    show List.foldlM extractStep (none, none) qs = _
    rw [h1, lastDateLit_none (fun q hq => (hnone q hq).1),
      lastDateLit_none (fun q hq => (hnone q hq).2)]

/-- Witness for C4: a mixed-case, repeated start-marker script; the later
(differently cased) assignment wins for the start marker. -/
theorem queryRunner_C4_witness :
    extract_date_range overrideScript =
      .ok (some ⟨2024, 3, 4, by decide⟩, some ⟨2024, 5, 6, by decide⟩) :=
  ((queryRunner_C4 overrideScript (by decide)).1).trans (by decide)

/-- C5 (amended): malformed marker date text that does not match the quoted
`NNNN-NN-NN` pattern leaves the marker not found and raises nothing; but a
quoted digit string of that shape which is not a valid calendar date (such
as 2024-02-30) makes `datetime.strptime` raise a `ValueError` that escapes
`extract_date_range`. -/
theorem queryRunner_C5 (qs : List Stmt)
    (h : ∀ q ∈ qs, findDateLit startMarker q = none ∧ findDateLit endMarker q = none) :
    extract_date_range qs = .ok (none, none) := by
  have hp2 : ∀ q ∈ qs,
      (∀ lit, findDateLit startMarker q = some lit → (pyStrptime lit).isSome = true) ∧
      (∀ lit, findDateLit endMarker q = some lit → (pyStrptime lit).isSome = true) := by
    intro q hq
    constructor
    · intro lit hl
      rw [(h q hq).1] at hl
      exact Option.noConfusion hl
    · intro lit hl
      rw [(h q hq).2] at hl
      exact Option.noConfusion hl
  have h1 := extract_fold_spec qs (none, none) hp2
  show List.foldlM extractStep (none, none) qs = _
  rw [h1, lastDateLit_none (fun q hq => (h q hq).1),
    lastDateLit_none (fun q hq => (h q hq).2)]

/-- Witness for C5 on marker assignments carrying malformed, non-pattern
date text: both markers stay not-found and nothing is raised. -/
theorem queryRunner_C5_witness :
    extract_date_range malformedScript = .ok (none, none) :=
  queryRunner_C5 malformedScript (by decide)

/-- Counterexample to C5 as frozen: the digit string 2024-02-30 matches the
extraction pattern but is not a valid calendar date, so `strptime` raises a
`ValueError` that escapes `extract_date_range` instead of the marker being
treated as not found. -/
theorem queryRunner_C5_counterexample :
    extract_date_range [invalidDateStmt] = .error () := by decide

/-- C6 (amended): on a variable-assignment statement of the general form
`SET <marker> = <quoted digit literal>` (any letter case, any whitespace
runs, either quote character), the rewrite replaces the quoted literal
following the assignment operator with the day text and keeps every other
character — except the quote characters themselves, which are always
rewritten to double quotes whatever the original quotes were, because the
replacement template hard-codes `"` around the substituted day. -/
theorem queryRunner_C6 (marker sw ws1 mw ws2 ws3 lit post day : List Char) (q1 q2 : Char)
    (hsw : matchLitCI setLit sw = some (sw, []))
    (hws1ne : ws1 ≠ []) (hws1 : ∀ c ∈ ws1, isWsCh c = true)
    (hmw : matchLitCI marker mw = some (mw, []))
    (hmk : ∃ mk2, marker = '@' :: mk2)
    (hws2 : ∀ c ∈ ws2, isWsCh c = true)
    (hws3 : ∀ c ∈ ws3, isWsCh c = true)
    (hq1 : isQuoteCh q1 = true) (hq2 : isQuoteCh q2 = true)
    (hlitne : lit ≠ []) (hlit : ∀ c ∈ lit, isDigitDashCh c = true)
    (hpost : hasP2 marker post = false) :
    pySubMarker marker day (sw ++ ws1 ++ mw ++ ws2 ++ '=' :: ws3 ++ q1 :: (lit ++ q2 :: post)) =
      sw ++ ws1 ++ mw ++ ws2 ++ '=' :: ws3 ++ dquoteCh :: (day ++ dquoteCh :: post) :=
  pySub_canonical hsw hws1ne hws1 hmw hmk hws2 hws3 hq1 hq2 hlitne hlit hpost

/-- Witness for C6: a mixed-case single-quoted assignment is rewritten in
place, with the quotes normalized to double quotes. -/
theorem queryRunner_C6_witness :
    pySubMarker startMarker "2024-05-06".data
        ("SeT".data ++ [' '] ++ "@Start_DATE".data ++ ([] : List Char) ++
          '=' :: [' '] ++ squoteCh :: ("2024-01-01".data ++ squoteCh :: ([] : List Char))) =
      "SeT".data ++ [' '] ++ "@Start_DATE".data ++ ([] : List Char) ++
        '=' :: [' '] ++ dquoteCh :: ("2024-05-06".data ++ dquoteCh :: ([] : List Char)) :=
  queryRunner_C6 startMarker "SeT".data [' '] "@Start_DATE".data ([] : List Char)
    [' '] "2024-01-01".data ([] : List Char) "2024-05-06".data squoteCh squoteCh
    (by decide) (by decide) (by decide) (by decide) ⟨"start_date".data, rfl⟩
    (by decide) (by decide) (by decide) (by decide) (by decide) (by decide) (by decide)

/-- Counterexample to C6 as frozen: a single-quoted date literal is
rewritten with double quotes, so the original quote characters around the
literal are not preserved as the claim states. -/
theorem queryRunner_C6_counterexample :
    pySubMarker startMarker "2024-01-05".data squotedSet =
      "SET @start_date = ".data ++ dquoteCh :: ("2024-01-05".data ++ [dquoteCh]) ∧
    pySubMarker startMarker "2024-01-05".data squotedSet ≠
      "SET @start_date = ".data ++ squoteCh :: ("2024-01-05".data ++ [squoteCh]) := by
  decide

/-- C7: for an executed statement, a missing result description writes no
file and still returns `True`; a present result set is written as a file
with the header row followed by the rows — in particular, a zero-row result
still produces a file consisting of the header row alone, a case distinct
from writing no file at all. -/
theorem queryRunner_C7 (db : DB) (q : Stmt) (sess : Session) :
    (∀ s2, db.exec q sess = (s2, .ok none) →
      execute_query_to_csv db q sess = (s2, true, none)) ∧
    (∀ s2 cns rows, db.exec q sess = (s2, .ok (some (cns, rows))) →
      execute_query_to_csv db q sess = (s2, true, some (cns :: rows))) ∧
    (∀ s2 cns, db.exec q sess = (s2, .ok (some (cns, []))) →
      execute_query_to_csv db q sess = (s2, true, some [cns])) := by
  refine ⟨?_, ?_, ?_⟩
  · intro s2 h
    unfold execute_query_to_csv
    simp only [h]
  · intro s2 cns rows h
    unfold execute_query_to_csv
    simp only [h]
  · intro s2 cns h
    unfold execute_query_to_csv
    simp only [h]

/-- Witness for C7: a side-effect statement yields `True` with no file; a
zero-row result set yields `True` with a header-only file. -/
theorem queryRunner_C7_witness :
    execute_query_to_csv dbNoResult selC ⟨none, none⟩ = (⟨none, none⟩, true, none) ∧
    execute_query_to_csv dbEmptyRows selC ⟨none, none⟩ = (⟨none, none⟩, true, some [["c"]]) :=
  ⟨(queryRunner_C7 dbNoResult selC ⟨none, none⟩).1 ⟨none, none⟩ rfl,
   (queryRunner_C7 dbEmptyRows selC ⟨none, none⟩).2.2 ⟨none, none⟩ ["c"] rfl⟩

/-- C8: every invocation whose `main` reaches query execution (that is, in
which the mode-choosing extraction of line 380 returns instead of raising)
appends exactly one record to the run log, carrying the overall status,
whatever the execution outcome; the log gains the fixed header row exactly
when the file was absent, and prior entries are preserved unchanged as a
prefix. -/
theorem queryRunner_C8 (db : DB) (queries : List Stmt) (old : Option (List (List String)))
    (meta : List String) (script : String) (out : MainOut)
    (h : main_run db queries old meta script = .ok out) :
    out.log = append_run_log old (meta ++ [out.status, script]) ∧
    (∀ rows, old = some rows → out.log = rows ++ [meta ++ [out.status, script]]) ∧
    (old = none → out.log = [logHeader, meta ++ [out.status, script]]) := by
  unfold main_run at h
  rcases hx : extract_date_range queries with u | ⟨os, oe⟩
  · rw [hx] at h
    exact absurd h (by simp)
  · rw [hx] at h
    have hgoal : out.log = append_run_log old (meta ++ [out.status, script]) := by
      cases os with
      | some sd =>
        cases oe with
        | some ed =>
          rcases hd : execute_query_daily_to_csv db ⟨none, none⟩ queries with ⟨ok2, f, tr⟩
          rw [hd] at h
          simp only at h
          injection h with h2
          subst h2
          rfl
        | none =>
          rcases hr : runSingle db ⟨none, none⟩ queries with ⟨s2, fs, n⟩
          rw [hr] at h
          simp only at h
          injection h with h2
          subst h2
          rfl
      | none =>
        cases oe with
        | some ed =>
          rcases hr : runSingle db ⟨none, none⟩ queries with ⟨s2, fs, n⟩
          rw [hr] at h
          simp only at h
          injection h with h2
          subst h2
          rfl
        | none =>
          rcases hr : runSingle db ⟨none, none⟩ queries with ⟨s2, fs, n⟩
          rw [hr] at h
          simp only at h
          injection h with h2
          subst h2
          rfl
    refine ⟨hgoal, ?_, ?_⟩
    · intro rows hrows
      subst hrows
      rw [hgoal]
      rfl
    · intro hnone
      subst hnone
      rw [hgoal]
      rfl

/-- Witness for C8 on a run over an empty script and an absent log file:
the log is created with the header row and exactly the one new record. -/
theorem queryRunner_C8_witness :
    outW.log = append_run_log none ([] ++ [outW.status, ""]) ∧
    (∀ rows, (none : Option (List (List String))) = some rows →
      outW.log = rows ++ [[] ++ [outW.status, ""]]) ∧
    ((none : Option (List (List String))) = none →
      outW.log = [logHeader, [] ++ [outW.status, ""]]) :=
  queryRunner_C8 dbNoResult [] none [] "" outW (by decide)

/-- C9: the chunked executor treats a statement as a variable assignment
exactly when its stripped text begins with `SET` case-insensitively; such
statements never contribute column names or rows, are rewritten exactly
when they mention a marker (case-insensitively) and executed verbatim
otherwise; every other statement is executed verbatim as a data statement,
its rows appended and its column names captured first-wins when a result
set is present. -/
theorem queryRunner_C9 (db : DB) (d1 d2 : PyDate) (st : RunSt) (q : Stmt) :
    (isSetStmt q = ciStartsWith setLit (pyStrip q)) ∧
    (isSetStmt q = true →
      (stepStmt db d1 d2 st q).1.cols = st.cols ∧
      (stepStmt db d1 d2 st q).1.acc = st.acc ∧
      (stepStmt db d1 d2 st q).1.trace = st.trace ++ [rewriteForDay d1 d2 q]) ∧
    (ciContains startMarker q = false → ciContains endMarker q = false →
      rewriteForDay d1 d2 q = q) ∧
    (isSetStmt q = false →
      (stepStmt db d1 d2 st q).1.trace = st.trace ++ [q] ∧
      (∀ s2 cns rows, db.exec q st.sess = (s2, .ok (some (cns, rows))) →
        (stepStmt db d1 d2 st q).1.acc = st.acc ++ rows ∧
        (stepStmt db d1 d2 st q).1.cols =
          (match st.cols with | none => some cns | some c => some c))) := by
  refine ⟨rfl, ?_, ?_, ?_⟩
  · intro h
    unfold stepStmt
    rw [if_pos h]
    rcases hx : db.exec (rewriteForDay d1 d2 q) st.sess with ⟨s2, r⟩
    cases r <;> simp [hx]
  · intro h1 h2
    unfold rewriteForDay
    rw [h1, h2]
    simp
  · intro h
    constructor
    · have ht := stepStmt_trace db d1 d2 st q
      rw [ht]
      unfold scheduleStmt
      rw [if_neg (by rw [h]; exact fun hc => Bool.noConfusion hc)]
    · intro s2 cns rows hx
      unfold stepStmt
      rw [if_neg (by rw [h]; exact fun hc => Bool.noConfusion hc)]
      simp only [hx]
      exact ⟨trivial, trivial⟩

/-- Witness for C9: a SET statement fetches nothing; a SET statement with
no marker is left verbatim; a data statement's rows are appended. -/
theorem queryRunner_C9_witness :
    ((stepStmt dbConstRow dayA dayA (initSt ⟨none, none⟩) set1C).1.cols =
        (initSt ⟨none, none⟩).cols ∧
      (stepStmt dbConstRow dayA dayA (initSt ⟨none, none⟩) set1C).1.acc =
        (initSt ⟨none, none⟩).acc ∧
      (stepStmt dbConstRow dayA dayA (initSt ⟨none, none⟩) set1C).1.trace =
        (initSt ⟨none, none⟩).trace ++ [rewriteForDay dayA dayA set1C]) ∧
    rewriteForDay dayA dayA "SET @x = 5".data = "SET @x = 5".data ∧
    ((stepStmt dbConstRow dayA dayA (initSt ⟨none, none⟩) selC).1.acc =
        (initSt ⟨none, none⟩).acc ++ [["R"]] ∧
      (stepStmt dbConstRow dayA dayA (initSt ⟨none, none⟩) selC).1.cols =
        (match (initSt ⟨none, none⟩).cols with | none => some ["c"] | some c => some c)) :=
  ⟨(queryRunner_C9 dbConstRow dayA dayA (initSt ⟨none, none⟩) set1C).2.1 (by decide),
   (queryRunner_C9 dbConstRow dayA dayA (initSt ⟨none, none⟩)
      "SET @x = 5".data).2.2.1 (by decide) (by decide),
   ((queryRunner_C9 dbConstRow dayA dayA (initSt ⟨none, none⟩) selC).2.2.2
      (by decide)).2 ⟨none, none⟩ ["c"] [["R"]] rfl⟩

/-- C10: `execute_query_daily_to_csv` is the `try` body wrapped so that
every raised error — database errors and any other exception alike — is
caught and becomes a `False` return with no file written; when the main
flow is in chunked mode, a `False` return still yields a normal `main`
outcome whose status is `failure` and whose log gains exactly one entry. -/
theorem queryRunner_C10 (db : DB) (s0 : Session) (queries : List Stmt) :
    (∀ e tr, dailyBody db s0 queries = .error (e, tr) →
      execute_query_daily_to_csv db s0 queries = (false, none, tr)) ∧
    (∀ r, dailyBody db s0 queries = .ok r →
      execute_query_daily_to_csv db s0 queries = r) ∧
    (∀ (s e : PyDate) (old : Option (List (List String))) (meta : List String)
        (script : String),
      extract_date_range queries = .ok (some s, some e) →
      main_run db queries old meta script = .ok
        ⟨(if (execute_query_daily_to_csv db ⟨none, none⟩ queries).1
            then "success" else "failure"),
         (execute_query_daily_to_csv db ⟨none, none⟩ queries).2.1,
         [],
         (execute_query_daily_to_csv db ⟨none, none⟩ queries).2.2,
         append_run_log old
           (meta ++ [(if (execute_query_daily_to_csv db ⟨none, none⟩ queries).1
              then "success" else "failure"), script])⟩) := by
  refine ⟨?_, ?_, ?_⟩
  · intro e tr h
    unfold execute_query_daily_to_csv
    rw [h]
  · intro r h
    unfold execute_query_daily_to_csv
    rw [h]
  · intro s e old meta script hx
    unfold main_run
    rw [hx]

/-- Witness for C10: on a database raising at every statement, the body
raises, the function returns `False` with no file, and `main` still ends
with one `failure` log entry. -/
theorem queryRunner_C10_witness :
    execute_query_daily_to_csv dbFail ⟨none, none⟩ scriptC = (false, none, [set1C]) ∧
    main_run dbFail scriptC none [] "" =
      .ok ⟨"failure", none, [], [set1C], append_run_log none ([] ++ ["failure", ""])⟩ := by
  constructor
  · exact (queryRunner_C10 dbFail ⟨none, none⟩ scriptC).1 "boom" [set1C] (by decide)
  · exact ((queryRunner_C10 dbFail ⟨none, none⟩ scriptC).2.2 dayA dayB none [] ""
      (by decide)).trans (by decide)

/-- C2: a database error while executing any statement of any chunk aborts
the whole chunked run: no combined CSV is written (the write happens only
after all chunks succeed), the attempted statements form a prefix of the
nominal per-day schedule with the failing statement last (so nothing is
retried and nothing after the failure runs), and the run is recorded with
status `failure` in the single run-log entry. -/
theorem queryRunner_C2 (db : DB) (queries : List Stmt) (s e : PyDate)
    (ds : List (PyDate × PyDate)) (st : RunSt) (err : String)
    (hx : extract_date_range queries = .ok (some s, some e))
    (hg : generate_daily_ranges s e = .ok ds)
    (hr : runDays db queries (initSt ⟨none, none⟩) ds = (st, some err)) :
    execute_query_daily_to_csv db ⟨none, none⟩ queries = (false, none, st.trace) ∧
    st.trace <+: chunkSchedule queries ds ∧
    ∀ (old : Option (List (List String))) (meta : List String) (script : String),
      main_run db queries old meta script =
        .ok ⟨"failure", none, [], st.trace,
          append_run_log old (meta ++ ["failure", script])⟩ := by
  have hdaily : execute_query_daily_to_csv db ⟨none, none⟩ queries =
      (false, none, st.trace) := by
    unfold execute_query_daily_to_csv dailyBody
    rw [hx]
    simp only [hg, hr]
  refine ⟨hdaily, ?_, ?_⟩
  · obtain ⟨tr, h1, h2⟩ := runDays_trace db queries ds (initSt ⟨none, none⟩)
    rw [hr] at h1
    have h1x : st.trace = tr := by simpa [initSt] using h1
    rw [h1x]
    exact h2
  · intro old meta script
    unfold main_run
    rw [hx]
    simp only [hdaily]
    rfl

/-- C1 (amended): the chunked path matches the single-pass result only for
day-decomposable data statements.  When every statement before the data
statement is a marker assignment, the range extracts to start ≤ end with
end below `datetime.max`, each chunk's assignments bind the session to that
day's bounds, the data statement returns rows as a function of the bound
session, and that function is day-decomposable (its rows over the full
range are the concatenation of its rows over the single days in ascending
order), then the chunked run succeeds and its combined CSV — header row
then accumulated rows — equals the CSV the single-pass run writes for the
data statement over the full range.  Without day-decomposability the two
paths differ (see the counterexample). -/
theorem queryRunner_C1 (db : DB) (pre : List Stmt) (dataQ : Stmt)
    (s e : PyDate) (ds : List (PyDate × PyDate))
    (c0 : String) (crest : List String) (rowsF : Session → List (List String))
    (hpre : ∀ q ∈ pre, isSetStmt q = true)
    (hdq : isSetStmt dataQ = false)
    (hx : extract_date_range (pre ++ [dataQ]) = .ok (some s, some e))
    (hle : dateLe s e) (hne : e ≠ dateMax)
    (hg : generate_daily_ranges s e = .ok ds)
    (hdays : ∀ p ∈ ds, ∀ sess, sessFoldChunk db p.1 p.2 sess pre =
      (⟨some (strftimeYMD p.1), some (strftimeYMD p.2)⟩, none))
    (hdata : ∀ sess, db.exec dataQ sess =
      (sess, .ok (some (c0 :: crest, rowsF sess))))
    (hplain : sessFoldPlain db ⟨none, none⟩ pre =
      ⟨some (strftimeYMD s), some (strftimeYMD e)⟩)
    (hdecomp : rowsF ⟨some (strftimeYMD s), some (strftimeYMD e)⟩ =
      ds.flatMap (fun p => rowsF ⟨some (strftimeYMD p.1), some (strftimeYMD p.2)⟩)) :
    (execute_query_daily_to_csv db ⟨none, none⟩ (pre ++ [dataQ])).1 = true ∧
    (execute_query_daily_to_csv db ⟨none, none⟩ (pre ++ [dataQ])).2.1 =
      some ((c0 :: crest) :: rowsF ⟨some (strftimeYMD s), some (strftimeYMD e)⟩) ∧
    (runSingle db ⟨none, none⟩ (pre ++ [dataQ])).2.1.getLast? =
      some (some ((c0 :: crest) :: rowsF ⟨some (strftimeYMD s), some (strftimeYMD e)⟩)) := by
  have hs : s ≠ dateMax := by
    intro hsm
    subst hsm
    exact hne (eq_dateMax_of_dateMax_le hle)
  have hnonempty : ∃ q rest, ds = q :: rest := by
    obtain ⟨s2, hs2, hord, heq⟩ := generate_cons hle hs
    rw [hg] at heq
    cases hr : generate_daily_ranges s2 e with
    | ok rest =>
      rw [hr] at heq
      exact ⟨(s, s), rest, by injection heq⟩
    | error u =>
      rw [hr] at heq
      exact absurd heq (by simp)
  obtain ⟨r1, r2, r3⟩ := runDays_accum db pre dataQ hpre hdq (c0 :: crest) rowsF hdata ds hdays
    (initSt ⟨none, none⟩)
  rcases hR : runDays db (pre ++ [dataQ]) (initSt ⟨none, none⟩) ds with ⟨stF, errF⟩
  rw [hR] at r1 r2 r3
  have herr : errF = none := r1
  subst herr
  have hacc : stF.acc = rowsF ⟨some (strftimeYMD s), some (strftimeYMD e)⟩ := by
    have : stF.acc = (initSt (⟨none, none⟩ : Session)).acc ++ ds.flatMap
        (fun p => rowsF ⟨some (strftimeYMD p.1), some (strftimeYMD p.2)⟩) := r2
    rw [this, hdecomp]
    rfl
  have hcols : stF.cols = some (c0 :: crest) := by
    obtain ⟨q, rest, hds⟩ := hnonempty
    subst hds
    exact r3
  have hdaily : dailyBody db ⟨none, none⟩ (pre ++ [dataQ]) =
      .ok (true, some ((c0 :: crest) ::
        rowsF ⟨some (strftimeYMD s), some (strftimeYMD e)⟩), stF.trace) := by
    unfold dailyBody
    rw [hx]
    simp only [hg, hR, hcols, hacc]
  refine ⟨?_, ?_, ?_⟩
  · unfold execute_query_daily_to_csv
    rw [hdaily]
  · unfold execute_query_daily_to_csv
    rw [hdaily]
  · rw [runSingle_snoc db pre dataQ ⟨none, none⟩, hplain]
    have hq : execute_query_to_csv db dataQ ⟨some (strftimeYMD s), some (strftimeYMD e)⟩ =
        (⟨some (strftimeYMD s), some (strftimeYMD e)⟩, true,
         some ((c0 :: crest) :: rowsF ⟨some (strftimeYMD s), some (strftimeYMD e)⟩)) := by
      unfold execute_query_to_csv
      rw [hdata ⟨some (strftimeYMD s), some (strftimeYMD e)⟩]
    rw [hq]
    simp

/-- Witness for C1: on the day-decomposable database `dbDaily` with the
concrete two-day script, the chunked run returns `True` and both paths
produce the same combined CSV. -/
theorem queryRunner_C1_witness :
    (execute_query_daily_to_csv dbDaily ⟨none, none⟩ ([set1C, set2C] ++ [selC])).1 = true ∧
    (execute_query_daily_to_csv dbDaily ⟨none, none⟩ ([set1C, set2C] ++ [selC])).2.1 =
      some (("day" :: []) ::
        rowsOfSession ⟨some (strftimeYMD dayA), some (strftimeYMD dayB)⟩) ∧
    (runSingle dbDaily ⟨none, none⟩ ([set1C, set2C] ++ [selC])).2.1.getLast? =
      some (some (("day" :: []) ::
        rowsOfSession ⟨some (strftimeYMD dayA), some (strftimeYMD dayB)⟩)) :=
  queryRunner_C1 dbDaily [set1C, set2C] selC dayA dayB dsC "day" [] rowsOfSession
    (by decide) (by decide) (by decide) (by decide) (by decide) (by decide)
    (by
      intro p hp sess
      simp [dsC] at hp
      rcases hp with rfl | rfl <;> (cases sess; rfl))
    (fun sess => rfl) (by decide) (by decide)

/-- Counterexample to C1 as stated: on `dbConstRow`, whose data statement
returns one constant row whatever range is bound (an aggregate-style
query), the chunked run over the two-day script accumulates the row once
per day, while the single-pass run returns it once — the combined result
sets differ. -/
theorem queryRunner_C1_counterexample :
    (execute_query_daily_to_csv dbConstRow ⟨none, none⟩ scriptC).2.1 =
      some [["c"], ["R"], ["R"]] ∧
    (runSingle dbConstRow ⟨none, none⟩ scriptC).2.1.getLast? =
      some (some [["c"], ["R"]]) ∧
    (some [["c"], ["R"], ["R"]] : Option (List (List String))) ≠
      some [["c"], ["R"]] := by decide

/-- Witness for C2: on a database that raises at the first statement of the
first chunk, the chunked run returns `False` with no CSV, only the failing
statement was attempted (a prefix of the two-day schedule), and `main`
logs one `failure` entry. -/
theorem queryRunner_C2_witness :
    execute_query_daily_to_csv dbFail ⟨none, none⟩ scriptC = (false, none, stC.trace) ∧
    stC.trace <+: chunkSchedule scriptC dsC ∧
    main_run dbFail scriptC none [] "" =
      .ok ⟨"failure", none, [], stC.trace,
        append_run_log none ([] ++ ["failure", ""])⟩ :=
  have h := queryRunner_C2 dbFail scriptC dayA dayB dsC stC "boom"
    (by decide) (by decide) (by decide)
  ⟨h.1, h.2.1, h.2.2 none [] ""⟩
